import Mathlib

/-!
Verification development for the essay-correction backend (`backend/crud.py`,
`backend/services/deepseek_service.py`, `backend/services/gemini_service.py`).

The Python code is shallowly embedded: SQLite tables become lists of row
structures threaded explicitly, `datetime.utcnow()` becomes an explicit `now`
argument, and the standard-library pair `json.dumps` / `json.loads` is modelled
by an executable printer/parser pair over an inductive `Json` type, together
with a proved round-trip theorem.  Modelling notes for the JSON pair:

* numeric literals are modelled by integers (`Int`); decimal fractions and
  exponents are elided, which no claim below depends on;
* `json.dumps` is modelled with its default separators `", "` and `": "` and
  without the `ensure_ascii` escaping of non-ASCII characters (escaping only
  changes the surface text, never the parsed value);
* the parser accepts leading zeros which CPython rejects, and rejects the
  CPython extensions `NaN` / `Infinity`; neither corner is exercised by any
  claim or concrete input below.
-/

/-- JSON values, the data round-tripped through `json.dumps` / `json.loads`.
Python `None` is `Json.null`; dictionaries are association lists. -/
inductive Json where
  | null : Json
  | bool : Bool → Json
  | num : Int → Json
  | str : String → Json
  | arr : List Json → Json
  | obj : List (String × Json) → Json

/-- Hexadecimal digit character (lower case), as produced by `json.dumps`
for `\u00XX` escapes. -/
def hexDigitChar (n : Nat) : Char :=
  if n < 10 then Char.ofNat (48 + n) else Char.ofNat (87 + n)

/-- Escape of one character inside a JSON string literal, following
`json.dumps`: the two-character escapes for quote, backslash and common
control characters, `\u00XX` for the remaining control characters, and the
character itself otherwise. -/
def escChar (c : Char) : List Char :=
  if c = '"' then ['\\', '"']
  else if c = '\\' then ['\\', '\\']
  else if c = '\n' then ['\\', 'n']
  else if c = '\r' then ['\\', 'r']
  else if c = '\t' then ['\\', 't']
  else if c = '\x08' then ['\\', 'b']
  else if c = '\x0c' then ['\\', 'f']
  else if c.toNat < 32 then
    ['\\', 'u', '0', '0', hexDigitChar (c.toNat / 16), hexDigitChar (c.toNat % 16)]
  else [c]

/-- Escape of a whole JSON string body. -/
def escBody : List Char → List Char
  | [] => []
  | c :: cs => escChar c ++ escBody cs

/-- Fuel-indexed accumulator loop producing the decimal digits of a natural
number; the fuel is only there to make the recursion structural, `natToChars`
always supplies enough. -/
def natToCharsAux : Nat → Nat → List Char → List Char
  | 0, _, acc => acc
  | fuel + 1, n, acc =>
    if n < 10 then Char.ofNat (48 + n) :: acc
    else natToCharsAux fuel (n / 10) (Char.ofNat (48 + n % 10) :: acc)

/-- Decimal digits of a natural number, most significant first. -/
def natToChars (n : Nat) : List Char := natToCharsAux (n + 1) n []

/-- Decimal rendering of an integer. -/
def intToChars (i : Int) : List Char :=
  if i < 0 then '-' :: natToChars (-i).toNat else natToChars i.toNat

/-- Rendering of an object key together with the `": "` separator that
follows it. -/
def keyChars (k : String) : List Char :=
  '"' :: (escBody k.data ++ ['"', ':', ' '])

mutual

/-- Rendering of a JSON value, following `json.dumps` with the default
separators `", "` and `": "`. -/
def printJson : Json → List Char
  | .null => ("null".data)
  | .bool true => ("true".data)
  | .bool false => ("false".data)
  | .num i => intToChars i
  | .str s => '"' :: (escBody s.data ++ ['"'])
  | .arr [] => ['[', ']']
  | .arr (x :: xs) => '[' :: ((printJson x ++ printElems xs) ++ [']'])
  | .obj [] => ['\x7b', '\x7d']
  | .obj ((k, v) :: kvs) =>
    '\x7b' :: ((keyChars k ++ printJson v ++ printMembers kvs) ++ ['\x7d'])

/-- Rendering of the tail of an array: `", elem"` for each element. -/
def printElems : List Json → List Char
  | [] => []
  | x :: xs => ',' :: ' ' :: (printJson x ++ printElems xs)

/-- Rendering of the tail of an object: `", member"` for each member. -/
def printMembers : List (String × Json) → List Char
  | [] => []
  | (k, v) :: kvs => ',' :: ' ' :: (keyChars k ++ printJson v ++ printMembers kvs)

end

/-- The text stored by `json.dumps(payload)`. -/
def json_dumps (v : Json) : String := String.mk (printJson v)

/-- JSON insignificant whitespace. -/
def isWsChar (c : Char) : Bool := c = ' ' || c = '\t' || c = '\n' || c = '\r'

/-- Drop leading JSON whitespace. -/
def skipWs : List Char → List Char
  | [] => []
  | c :: cs => if isWsChar c then skipWs cs else c :: cs

/-- ASCII decimal digit test. -/
def isDigitB (c : Char) : Bool := 48 ≤ c.toNat && c.toNat ≤ 57

/-- Value of a list of decimal digits. -/
def digitsVal (ds : List Char) : Nat :=
  ds.foldl (fun a c => a * 10 + (c.toNat - 48)) 0

/-- Parse a maximal run of decimal digits. -/
def parseNatNum (cs : List Char) : Option (Nat × List Char) :=
  let ds := cs.takeWhile isDigitB
  if ds.isEmpty then none else some (digitsVal ds, cs.dropWhile isDigitB)

/-- Value of a hexadecimal digit character. -/
def hexVal (c : Char) : Option Nat :=
  if 48 ≤ c.toNat && c.toNat ≤ 57 then some (c.toNat - 48)
  else if 97 ≤ c.toNat && c.toNat ≤ 102 then some (c.toNat - 87)
  else if 65 ≤ c.toNat && c.toNat ≤ 70 then some (c.toNat - 55)
  else none

/-- Prepend a character to the string component of a partial parse. -/
def consStr (c : Char) : Option (List Char × List Char) → Option (List Char × List Char)
  | none => none
  | some (s, r) => some (c :: s, r)

/-- Decode the four hex digits of a `\uXXXX` escape. -/
def decodeHex (h1 h2 h3 h4 : Char) : Option Nat :=
  match hexVal h1, hexVal h2, hexVal h3, hexVal h4 with
  | some a, some b, some c, some d => some (((a * 16 + b) * 16 + c) * 16 + d)
  | _, _, _, _ => none

/-- Fuel-indexed worker for `parseStrBody`; each recursion step consumes at
least one character, so `parseStrBody` always provides enough fuel. -/
def parseStrBodyF : Nat → List Char → Option (List Char × List Char)
  | 0, _ => none
  | fuel + 1, cs =>
    match cs with
    | [] => none
    | c :: cs =>
      if c = '"' then some ([], cs)
      else if c = '\\' then
        match cs with
        | [] => none
        | e :: cs2 =>
          if e = '"' then consStr '"' (parseStrBodyF fuel cs2)
          else if e = '\\' then consStr '\\' (parseStrBodyF fuel cs2)
          else if e = '/' then consStr '/' (parseStrBodyF fuel cs2)
          else if e = 'n' then consStr '\n' (parseStrBodyF fuel cs2)
          else if e = 'r' then consStr '\r' (parseStrBodyF fuel cs2)
          else if e = 't' then consStr '\t' (parseStrBodyF fuel cs2)
          else if e = 'b' then consStr '\x08' (parseStrBodyF fuel cs2)
          else if e = 'f' then consStr '\x0c' (parseStrBodyF fuel cs2)
          else if e = 'u' then
            match cs2 with
            | h1 :: h2 :: h3 :: h4 :: cs3 =>
              match decodeHex h1 h2 h3 h4 with
              | some code => consStr (Char.ofNat code) (parseStrBodyF fuel cs3)
              | none => none
            | _ => none
          else none
      else consStr c (parseStrBodyF fuel cs)

/-- Parse a JSON string body (after the opening quote) up to and including the
closing quote, decoding escapes. -/
def parseStrBody (cs : List Char) : Option (List Char × List Char) :=
  parseStrBodyF (cs.length + 1) cs

mutual

/-- Fuel-indexed recursive-descent parser for one JSON value, preceded by
optional whitespace. -/
def parseVal : Nat → List Char → Option (Json × List Char)
  | 0, _ => none
  | fuel + 1, cs =>
    match skipWs cs with
    | [] => none
    | c :: rest =>
      if c = '"' then
        match parseStrBody rest with
        | some (s, r) => some (.str (String.mk s), r)
        | none => none
      else if c = '[' then
        match skipWs rest with
        | ']' :: r2 => some (.arr [], r2)
        | cs2 =>
          match parseElems fuel cs2 with
          | some (vs, r2) => some (.arr vs, r2)
          | none => none
      else if c = '\x7b' then
        match skipWs rest with
        | '\x7d' :: r2 => some (.obj [], r2)
        | cs2 =>
          match parseMembers fuel cs2 with
          | some (ms, r2) => some (.obj ms, r2)
          | none => none
      else if c = '-' then
        match parseNatNum rest with
        | some (n, r) => some (.num (-(n : Int)), r)
        | none => none
      else if isDigitB c then
        match parseNatNum (c :: rest) with
        | some (n, r) => some (.num (n : Int), r)
        | none => none
      else if c = 'n' then
        match rest with
        | 'u' :: 'l' :: 'l' :: r => some (.null, r)
        | _ => none
      else if c = 't' then
        match rest with
        | 'r' :: 'u' :: 'e' :: r => some (.bool true, r)
        | _ => none
      else if c = 'f' then
        match rest with
        | 'a' :: 'l' :: 's' :: 'e' :: r => some (.bool false, r)
        | _ => none
      else none

/-- Parser for the elements of a non-empty array, up to and including the
closing bracket. -/
def parseElems : Nat → List Char → Option (List Json × List Char)
  | 0, _ => none
  | fuel + 1, cs =>
    match parseVal fuel cs with
    | none => none
    | some (v, r) =>
      match skipWs r with
      | ',' :: r2 =>
        match parseElems fuel r2 with
        | some (vs, r3) => some (v :: vs, r3)
        | none => none
      | ']' :: r2 => some ([v], r2)
      | _ => none

/-- Parser for the members of a non-empty object, up to and including the
closing brace. -/
def parseMembers : Nat → List Char → Option (List (String × Json) × List Char)
  | 0, _ => none
  | fuel + 1, cs =>
    match skipWs cs with
    | '"' :: rest =>
      match parseStrBody rest with
      | none => none
      | some (k, r) =>
        match skipWs r with
        | ':' :: r2 =>
          match parseVal fuel r2 with
          | none => none
          | some (v, r3) =>
            match skipWs r3 with
            | ',' :: r4 =>
              match parseMembers fuel r4 with
              | some (ms, r5) => some ((String.mk k, v) :: ms, r5)
              | none => none
            | '\x7d' :: r4 => some ([(String.mk k, v)], r4)
            | _ => none
        | _ => none
    | _ => none

end

/-- Model of Python `json.loads`: parse one document and require that only
whitespace remains; any failure is `none` (a `JSONDecodeError`). -/
def json_loads (s : String) : Option Json :=
  match parseVal (2 * s.length + 2) s.data with
  | some (v, rest) => if (skipWs rest).isEmpty then some v else none
  | none => none

/-- Sanity check: a small object decodes as in `json.loads`. -/
theorem json_loads_obj_check :
    json_loads (String.mk ['\x7b', '"', 'a', '"', ':', ' ', '1', '\x7d']) =
    some (Json.obj [("a", Json.num 1)]) := rfl

/-- Sanity check: a small array decodes as in `json.loads`. -/
theorem json_loads_arr_check : json_loads ("[1, -2, true]") =
    some (Json.arr [Json.num 1, Json.num (-2), Json.bool true]) := rfl

/-- Sanity check: non-JSON text is rejected. -/
theorem json_loads_bad_check : json_loads ("xyz") = none := rfl

/-- Sanity check: a small object prints with `json.dumps` separators. -/
theorem json_dumps_obj_check : json_dumps (Json.obj [("a", Json.num 1)]) =
    String.mk ['\x7b', '"', 'a', '"', ':', ' ', '1', '\x7d'] := rfl

/-- Sanity check: an escaped string survives one concrete round trip. -/
theorem json_round_trip_check :
    json_loads (json_dumps (Json.arr [Json.str ("a\nb"), Json.null])) =
    some (Json.arr [Json.str ("a\nb"), Json.null]) := rfl

/-! ### Round trip: `json_loads (json_dumps v) = some v` -/

/-- The accumulator form of the digit loop agrees with `natToChars` whenever
it has enough fuel. -/
theorem natToCharsAux_eq (n : Nat) : ∀ fuel acc, n < fuel →
    natToCharsAux fuel n acc = natToChars n ++ acc := by
  induction n using Nat.strong_induction_on with
  | _ n ih =>
    intro fuel acc hfu
    match fuel, hfu with
    | f + 1, _ =>
      by_cases h10 : n < 10
      · simp [natToCharsAux, natToChars, h10]
      · have hdiv : n / 10 < n := Nat.div_lt_self (by omega) (by omega)
        have h1 : natToCharsAux f (n / 10) (Char.ofNat (48 + n % 10) :: acc) =
            natToChars (n / 10) ++ (Char.ofNat (48 + n % 10) :: acc) :=
          ih (n / 10) hdiv f _ (by omega)
        have h2 : natToCharsAux n (n / 10) [Char.ofNat (48 + n % 10)] =
            natToChars (n / 10) ++ [Char.ofNat (48 + n % 10)] :=
          ih (n / 10) hdiv n _ (by omega)
        simp [natToCharsAux, h10, natToChars, h1, h2]

/-- Unfolding equation of `natToChars` for small numbers. -/
theorem natToChars_lt (n : Nat) (h : n < 10) :
    natToChars n = [Char.ofNat (48 + n)] := by
  simp [natToChars, natToCharsAux, h]

/-- Unfolding equation of `natToChars` for numbers with several digits. -/
theorem natToChars_ge (n : Nat) (h : ¬ n < 10) :
    natToChars n = natToChars (n / 10) ++ [Char.ofNat (48 + n % 10)] := by
  have hdiv : n / 10 < n := Nat.div_lt_self (by omega) (by omega)
  have := natToCharsAux_eq (n / 10) n [Char.ofNat (48 + n % 10)] (by omega)
  simp [natToChars, natToCharsAux, h]
  exact this

/-- `Char.toNat` inverts `Char.ofNat` on valid code points. -/
theorem charToNat_ofNat (n : Nat) (h : Nat.isValidChar n) : (Char.ofNat n).toNat = n := by
  unfold Char.ofNat
  split
  · simp [Char.ofNatAux, Char.toNat, UInt32.toNat]
  · contradiction

/-- `Char.toNat` inverts `Char.ofNat` below the surrogate range. -/
theorem charToNat_ofNat_small (n : Nat) (h : n < 55296) : (Char.ofNat n).toNat = n :=
  charToNat_ofNat n (Or.inl h)

/-- Digit characters produced by `natToChars` are decimal digits, and there is
at least one of them. -/
theorem natToChars_digits (n : Nat) :
    natToChars n ≠ [] ∧ ∀ c ∈ natToChars n, isDigitB c = true := by
  induction n using Nat.strong_induction_on with
  | _ n ih =>
    by_cases h10 : n < 10
    · rw [natToChars_lt n h10]
      refine ⟨by simp, ?_⟩
      intro c hc
      simp at hc
      subst hc
      simp [isDigitB, charToNat_ofNat_small (48 + n) (by omega)]
      omega
    · rw [natToChars_ge n h10]
      have hdiv : n / 10 < n := Nat.div_lt_self (by omega) (by omega)
      obtain ⟨hne, hdig⟩ := ih (n / 10) hdiv
      refine ⟨by simp [hne], ?_⟩
      intro c hc
      rcases List.mem_append.mp hc with h | h
      · exact hdig c h
      · simp at h
        subst h
        have : n % 10 < 10 := Nat.mod_lt _ (by omega)
        simp [isDigitB, charToNat_ofNat_small (48 + n % 10) (by omega)]
        omega

/-- Appending one more digit multiplies the value by ten. -/
theorem digitsVal_append (ds : List Char) (c : Char) :
    digitsVal (ds ++ [c]) = digitsVal ds * 10 + (c.toNat - 48) := by
  simp [digitsVal, List.foldl_append]

/-- `digitsVal` inverts `natToChars`. -/
theorem digitsVal_natToChars (n : Nat) : digitsVal (natToChars n) = n := by
  induction n using Nat.strong_induction_on with
  | _ n ih =>
    by_cases h10 : n < 10
    · rw [natToChars_lt n h10]
      simp [digitsVal, charToNat_ofNat_small (48 + n) (by omega)]
    · rw [natToChars_ge n h10, digitsVal_append]
      have hdiv : n / 10 < n := Nat.div_lt_self (by omega) (by omega)
      rw [ih (n / 10) hdiv]
      rw [charToNat_ofNat_small (48 + n % 10) (by omega)]
      omega

/-- True when the list does not begin with a decimal digit, so that a digit
run just before it ends exactly there. -/
def noDigitHeadB : List Char → Bool
  | [] => true
  | c :: _ => !(isDigitB c)

/-- A run of digits followed by a non-digit splits as expected under
`takeWhile`. -/
theorem takeWhile_digit_append (ds rest : List Char)
    (hds : ∀ c ∈ ds, isDigitB c = true) (hrest : noDigitHeadB rest = true) :
    (ds ++ rest).takeWhile isDigitB = ds ∧ (ds ++ rest).dropWhile isDigitB = rest := by
  induction ds with
  | nil =>
    simp only [List.nil_append]
    cases rest with
    | nil => simp
    | cons c cs =>
      simp [noDigitHeadB] at hrest
      simp [List.takeWhile_cons, List.dropWhile_cons, hrest]
  | cons d ds ih =>
    have hd : isDigitB d = true := hds d (by simp)
    have htail : ∀ c ∈ ds, isDigitB c = true := fun c hc => hds c (by simp [hc])
    obtain ⟨h1, h2⟩ := ih htail
    simp [List.takeWhile_cons, List.dropWhile_cons, hd, h1, h2]

/-- `parseNatNum` undoes `natToChars` when the remainder does not start with
a digit. -/
theorem parseNatNum_natToChars (n : Nat) (rest : List Char)
    (hrest : noDigitHeadB rest = true) :
    parseNatNum (natToChars n ++ rest) = some (n, rest) := by
  obtain ⟨hne, hdig⟩ := natToChars_digits n
  obtain ⟨h1, h2⟩ := takeWhile_digit_append (natToChars n) rest hdig hrest
  simp [parseNatNum, h1, h2, hne, digitsVal_natToChars]

/-- Skipping whitespace does nothing when the head is not whitespace. -/
theorem skipWs_cons (c : Char) (cs : List Char) (h : isWsChar c = false) :
    skipWs (c :: cs) = c :: cs := by
  simp [skipWs, h]

/-- Digits are not JSON whitespace and are none of the significant lead
characters of other JSON tokens. -/
theorem digit_facts (c : Char) (h : isDigitB c = true) :
    isWsChar c = false ∧ c ≠ '"' ∧ c ≠ '[' ∧ c ≠ '\x7b' ∧ c ≠ '-' := by
  have hb : 48 ≤ c.toNat ∧ c.toNat ≤ 57 := by simpa [isDigitB] using h
  have hsp : c ≠ ' ' := fun he => by subst he; exact absurd hb (by decide)
  have hta : c ≠ '\t' := fun he => by subst he; exact absurd hb (by decide)
  have hnl : c ≠ '\n' := fun he => by subst he; exact absurd hb (by decide)
  have hcr : c ≠ '\r' := fun he => by subst he; exact absurd hb (by decide)
  refine ⟨by simp [isWsChar, hsp, hta, hnl, hcr], ?_, ?_, ?_, ?_⟩
  all_goals intro heq; subst heq; exact absurd hb (by decide)

/-- `hexVal` inverts `hexDigitChar` on hex digits. -/
theorem hexVal_hexDigitChar : ∀ m, m < 16 → hexVal (hexDigitChar m) = some m := by
  decide

/-- Decoding the hex digits produced for a `\\u00XX` escape. -/
theorem decodeHex_digits (a b : Nat) (ha : a < 16) (hb : b < 16) :
    decodeHex '0' '0' (hexDigitChar a) (hexDigitChar b) =
      some (((0 * 16 + 0) * 16 + a) * 16 + b) := by
  rw [decodeHex.eq_def, hexVal_hexDigitChar _ ha, hexVal_hexDigitChar _ hb]
  rfl

/-- Step equation of the string parser at a `\uXXXX` escape. -/
theorem parseStrBodyF_unicode (f : Nat) (h1 h2 h3 h4 : Char) (tail : List Char) :
    parseStrBodyF (f + 1) ('\\' :: 'u' :: h1 :: h2 :: h3 :: h4 :: tail) =
      (match decodeHex h1 h2 h3 h4 with
       | some code => consStr (Char.ofNat code) (parseStrBodyF f tail)
       | none => none) := by
  rw [parseStrBodyF]
  rfl

/-- One escaped character is decoded back to the character it encodes. -/
theorem parseStrBodyF_escChar (c : Char) (tail : List Char) (f : Nat) :
    parseStrBodyF (f + 1) (escChar c ++ tail) = consStr c (parseStrBodyF f tail) := by
  by_cases h1 : c = '"'
  · subst h1; rw [parseStrBodyF.eq_def]; rfl
  by_cases h2 : c = '\\'
  · subst h2; rw [parseStrBodyF.eq_def]; rfl
  by_cases h3 : c = '\n'
  · subst h3; rw [parseStrBodyF.eq_def]; rfl
  by_cases h4 : c = '\r'
  · subst h4; rw [parseStrBodyF.eq_def]; rfl
  by_cases h5 : c = '\t'
  · subst h5; rw [parseStrBodyF.eq_def]; rfl
  by_cases h6 : c = '\x08'
  · subst h6; rw [parseStrBodyF.eq_def]; rfl
  by_cases h7 : c = '\x0c'
  · subst h7; rw [parseStrBodyF.eq_def]; rfl
  by_cases h8 : c.toNat < 32
  · have hlo : c.toNat / 16 < 16 := by omega
    have hhi : c.toNat % 16 < 16 := by omega
    rw [show escChar c = ['\\', 'u', '0', '0', hexDigitChar (c.toNat / 16),
        hexDigitChar (c.toNat % 16)] from by
      simp [escChar, h1, h2, h3, h4, h5, h6, h7, h8]]
    rw [List.cons_append, List.cons_append, List.cons_append, List.cons_append,
      List.cons_append, List.cons_append, List.nil_append]
    rw [parseStrBodyF_unicode, decodeHex_digits _ _ hlo hhi]
    have harith : ((0 * 16 + 0) * 16 + c.toNat / 16) * 16 + c.toNat % 16 = c.toNat := by
      omega
    rw [harith]
    simp only [Char.ofNat_toNat]
  · rw [show escChar c = [c] from by simp [escChar, h1, h2, h3, h4, h5, h6, h7, h8]]
    rw [List.cons_append, List.nil_append, parseStrBodyF.eq_def]
    simp [h1, h2]

/-- A full escaped string body followed by the closing quote is decoded back
to the original characters, given enough fuel. -/
theorem parseStrBodyF_escBody (s : List Char) : ∀ (f : Nat) (rest : List Char),
    s.length < f →
    parseStrBodyF f (escBody s ++ ('"' :: rest)) = some (s, rest) := by
  induction s with
  | nil =>
    intro f rest hf
    match f, hf with
    | g + 1, _ =>
      rw [show escBody [] ++ ('"' :: rest) = '"' :: rest from rfl]
      rw [parseStrBodyF.eq_def]
      rfl
  | cons c cs ih =>
    intro f rest hf
    obtain ⟨g, rfl⟩ : ∃ g, f = g + 1 := ⟨f - 1, by omega⟩
    rw [show escBody (c :: cs) ++ ('"' :: rest) =
        escChar c ++ (escBody cs ++ ('"' :: rest)) from by
      simp [escBody, List.append_assoc]]
    rw [parseStrBodyF_escChar, ih g rest (by simp at hf; omega)]
    rfl

/-- Each character escape occupies at least one character. -/
theorem escChar_length_pos (c : Char) : 1 ≤ (escChar c).length := by
  unfold escChar
  split_ifs <;> simp

/-- Escaping a string body never shortens it. -/
theorem escBody_length (s : List Char) : s.length ≤ (escBody s).length := by
  induction s with
  | nil => simp [escBody]
  | cons c cs ih =>
    have := escChar_length_pos c
    simp only [escBody, List.length_append, List.length_cons]
    omega

/-- The wrapper `parseStrBody` always has enough fuel for an escaped body. -/
theorem parseStrBody_escBody (s : List Char) (rest : List Char) :
    parseStrBody (escBody s ++ ('"' :: rest)) = some (s, rest) := by
  have hlen := escBody_length s
  refine parseStrBodyF_escBody s _ rest ?_
  simp only [List.length_append, List.length_cons]
  omega

mutual

/-- Fuel budget sufficient for `parseVal` to parse a printed value. -/
def jfuel : Json → Nat
  | .null => 1
  | .bool _ => 1
  | .num _ => 1
  | .str _ => 1
  | .arr xs => 2 + jfuelElems xs
  | .obj kvs => 2 + jfuelMembers kvs

/-- Fuel budget for the element list of an array. -/
def jfuelElems : List Json → Nat
  | [] => 0
  | x :: xs => 1 + jfuel x + jfuelElems xs

/-- Fuel budget for the member list of an object. -/
def jfuelMembers : List (String × Json) → Nat
  | [] => 0
  | (_, v) :: kvs => 1 + jfuel v + jfuelMembers kvs

end

/-- Every value needs at least one unit of fuel. -/
theorem jfuel_pos (v : Json) : 1 ≤ jfuel v := by
  cases v <;> simp [jfuel] <;> omega

/-- `skipWs` is idempotent. -/
theorem skipWs_idem (cs : List Char) : skipWs (skipWs cs) = skipWs cs := by
  induction cs with
  | nil => rfl
  | cons c cs ih =>
    by_cases h : isWsChar c = true
    · simp [skipWs, h, ih]
    · simp only [Bool.not_eq_true] at h
      simp [skipWs, h]

/-- `parseVal` only looks at its input through `skipWs`. -/
theorem parseVal_skipWs (f : Nat) (cs : List Char) :
    parseVal f (skipWs cs) = parseVal f cs := by
  cases f with
  | zero => rfl
  | succ g => simp [parseVal, skipWs_idem]

/-- A single leading blank is invisible to `parseVal`. -/
theorem parseVal_space (f : Nat) (cs : List Char) :
    parseVal f (' ' :: cs) = parseVal f cs := by
  have h : skipWs (' ' :: cs) = skipWs cs := by simp [skipWs, isWsChar]
  rw [← parseVal_skipWs f (' ' :: cs), h, parseVal_skipWs]

/-- A single leading blank is invisible to `parseElems`. -/
theorem parseElems_space (f : Nat) (cs : List Char) :
    parseElems f (' ' :: cs) = parseElems f cs := by
  cases f with
  | zero => rfl
  | succ g => simp [parseElems, parseVal_space]

/-- A single leading blank is invisible to `parseMembers`. -/
theorem parseMembers_space (f : Nat) (cs : List Char) :
    parseMembers f (' ' :: cs) = parseMembers f cs := by
  cases f with
  | zero => rfl
  | succ g =>
    have h : skipWs (' ' :: cs) = skipWs cs := by simp [skipWs, isWsChar]
    simp [parseMembers, h]

/-- The head of a printed digit run is a digit. -/
theorem natToChars_head (n : Nat) :
    ∃ c cs, natToChars n = c :: cs ∧ isDigitB c = true := by
  obtain ⟨hne, hdig⟩ := natToChars_digits n
  cases hn : natToChars n with
  | nil => exact absurd hn hne
  | cons c cs => exact ⟨c, cs, rfl, hdig c (by rw [hn]; simp)⟩

/-- Digits are also distinct from the closing characters of containers. -/
theorem digit_more (c : Char) (h : isDigitB c = true) : c ≠ ']' ∧ c ≠ '\x7d' := by
  have hb : 48 ≤ c.toNat ∧ c.toNat ≤ 57 := by simpa [isDigitB] using h
  constructor
  all_goals intro heq; subst heq; exact absurd hb (by decide)

/-- Step equation of `parseVal` at a `null` literal. -/
theorem parseVal_null (f : Nat) (rest : List Char) :
    parseVal (f + 1) ('n' :: 'u' :: 'l' :: 'l' :: rest) = some (.null, rest) := by
  rw [parseVal.eq_def]
  split
  · omega
  · rw [skipWs_cons _ _ (by decide)]
    rfl

/-- Step equation of `parseVal` at a `true` literal. -/
theorem parseVal_true (f : Nat) (rest : List Char) :
    parseVal (f + 1) ('t' :: 'r' :: 'u' :: 'e' :: rest) = some (.bool true, rest) := by
  rw [parseVal.eq_def]
  split
  · omega
  · rw [skipWs_cons _ _ (by decide)]
    rfl

/-- Step equation of `parseVal` at a `false` literal. -/
theorem parseVal_false (f : Nat) (rest : List Char) :
    parseVal (f + 1) ('f' :: 'a' :: 'l' :: 's' :: 'e' :: rest) = some (.bool false, rest) := by
  rw [parseVal.eq_def]
  split
  · omega
  · rw [skipWs_cons _ _ (by decide)]
    rfl

/-- Step equation of `parseVal` at an opening quote. -/
theorem parseVal_quote (f : Nat) (rest : List Char) :
    parseVal (f + 1) ('"' :: rest) =
      (match parseStrBody rest with
       | some (s, r) => some (.str (String.mk s), r)
       | none => none) := by
  rw [parseVal.eq_def]
  split
  · omega
  · rw [skipWs_cons _ _ (by decide)]
    rfl

/-- Step equation of `parseVal` at an opening bracket. -/
theorem parseVal_lbrack (f : Nat) (rest : List Char) :
    parseVal (f + 1) ('[' :: rest) =
      (match skipWs rest with
       | ']' :: r2 => some (.arr [], r2)
       | cs2 =>
         match parseElems f cs2 with
         | some (vs, r2) => some (.arr vs, r2)
         | none => none) := by
  rw [parseVal.eq_def]
  split
  · omega
  · rename_i fuel heq
    obtain rfl : fuel = f := by omega
    rw [skipWs_cons _ _ (by decide)]
    rfl

/-- Step equation of `parseVal` at an opening brace. -/
theorem parseVal_lbrace (f : Nat) (rest : List Char) :
    parseVal (f + 1) ('\x7b' :: rest) =
      (match skipWs rest with
       | '\x7d' :: r2 => some (.obj [], r2)
       | cs2 =>
         match parseMembers f cs2 with
         | some (ms, r2) => some (.obj ms, r2)
         | none => none) := by
  rw [parseVal.eq_def]
  split
  · omega
  · rename_i fuel heq
    obtain rfl : fuel = f := by omega
    rw [skipWs_cons _ _ (by decide)]
    rfl

/-- Step equation of `parseVal` at a minus sign. -/
theorem parseVal_dash (f : Nat) (rest : List Char) :
    parseVal (f + 1) ('-' :: rest) =
      (match parseNatNum rest with
       | some (n, r) => some (.num (-(n : Int)), r)
       | none => none) := by
  rw [parseVal.eq_def]
  split
  · omega
  · rw [skipWs_cons _ _ (by decide)]
    rfl

/-- Step equation of `parseVal` at a digit. -/
theorem parseVal_digit (f : Nat) (c : Char) (rest : List Char) (h : isDigitB c = true) :
    parseVal (f + 1) (c :: rest) =
      (match parseNatNum (c :: rest) with
       | some (n, r) => some (.num (n : Int), r)
       | none => none) := by
  obtain ⟨hws, hq, hlb, hob, hdash⟩ := digit_facts c h
  rw [parseVal.eq_def]
  split
  · omega
  · rw [skipWs_cons c rest hws]
    split
    · simp_all
    · rename_i c2 rest2 heq
      injection heq with hc hrest
      subst hc
      subst hrest
      rw [if_neg hq, if_neg hlb, if_neg hob, if_neg hdash, if_pos h]

/-- Step equation of `parseElems`. -/
theorem parseElems_succ (f : Nat) (cs : List Char) :
    parseElems (f + 1) cs =
      (match parseVal f cs with
       | none => none
       | some (v, r) =>
         match skipWs r with
         | ',' :: r2 =>
           match parseElems f r2 with
           | some (vs, r3) => some (v :: vs, r3)
           | none => none
         | ']' :: r2 => some ([v], r2)
         | _ => none) := by
  rw [parseElems.eq_def]

/-- Step equation of `parseMembers`. -/
theorem parseMembers_succ (f : Nat) (cs : List Char) :
    parseMembers (f + 1) cs =
      (match skipWs cs with
       | '"' :: rest =>
         match parseStrBody rest with
         | none => none
         | some (k, r) =>
           match skipWs r with
           | ':' :: r2 =>
             match parseVal f r2 with
             | none => none
             | some (v, r3) =>
               match skipWs r3 with
               | ',' :: r4 =>
                 match parseMembers f r4 with
                 | some (ms, r5) => some ((String.mk k, v) :: ms, r5)
                 | none => none
               | '\x7d' :: r4 => some ([(String.mk k, v)], r4)
               | _ => none
           | _ => none
       | _ => none) := by
  rw [parseMembers.eq_def]

/-- Every printed JSON value begins with a significant character that is not
whitespace and not a closing delimiter. -/
theorem printJson_head (v : Json) :
    ∃ c tl, printJson v = c :: tl ∧ isWsChar c = false ∧ c ≠ ']' ∧ c ≠ '\x7d' := by
  cases v with
  | null => exact ⟨'n', ['u', 'l', 'l'], by rw [printJson], by decide, by decide, by decide⟩
  | bool b =>
    cases b with
    | true => exact ⟨'t', ['r', 'u', 'e'], by rw [printJson], by decide, by decide, by decide⟩
    | false =>
      exact ⟨'f', ['a', 'l', 's', 'e'], by rw [printJson], by decide, by decide, by decide⟩
  | num i =>
    by_cases hi : i < 0
    · refine ⟨'-', natToChars (-i).toNat, ?_, by decide, by decide, by decide⟩
      rw [printJson]
      simp [intToChars, hi]
    · obtain ⟨c, cs', hn, hd⟩ := natToChars_head i.toNat
      obtain ⟨hws, _, _, _, _⟩ := digit_facts c hd
      obtain ⟨hr1, hr2⟩ := digit_more c hd
      refine ⟨c, cs', ?_, hws, hr1, hr2⟩
      rw [printJson]
      simp [intToChars, hi, hn]
  | str s =>
    exact ⟨'"', escBody s.data ++ ['"'], by rw [printJson], by decide, by decide, by decide⟩
  | arr xs =>
    cases xs with
    | nil => exact ⟨'[', [']'], by rw [printJson], by decide, by decide, by decide⟩
    | cons x xs =>
      exact ⟨'[', (printJson x ++ printElems xs) ++ [']'], by rw [printJson],
        by decide, by decide, by decide⟩
  | obj kvs =>
    cases kvs with
    | nil => exact ⟨'\x7b', ['\x7d'], by rw [printJson], by decide, by decide, by decide⟩
    | cons kv kvs =>
      obtain ⟨k, v⟩ := kv
      exact ⟨'\x7b', (keyChars k ++ printJson v ++ printMembers kvs) ++ ['\x7d'],
        by rw [printJson], by decide, by decide, by decide⟩

/-- Whitespace skipping does not consume any part of a printed value. -/
theorem skipWs_print (v : Json) (rest : List Char) :
    skipWs (printJson v ++ rest) = printJson v ++ rest := by
  obtain ⟨c, tl, hp, hws, _, _⟩ := printJson_head v
  rw [hp, List.cons_append, skipWs_cons _ _ hws]

/-- The text following one array element never starts with a digit. -/
theorem noDigit_elems (xs : List Json) (rest : List Char) :
    noDigitHeadB (printElems xs ++ (']' :: rest)) = true := by
  cases xs with
  | nil => rfl
  | cons y ys => rw [printElems]; rfl

/-- The text following one object member never starts with a digit. -/
theorem noDigit_members (kvs : List (String × Json)) (rest : List Char) :
    noDigitHeadB (printMembers kvs ++ ('\x7d' :: rest)) = true := by
  cases kvs with
  | nil => rfl
  | cons kv kvs =>
    obtain ⟨k, v⟩ := kv
    rw [printMembers]; rfl

mutual

/-- Induction principle for `Json` giving element-wise hypotheses for the
nested lists. -/
def jind {motive : Json → Prop} (hnull : motive .null) (hbool : ∀ b, motive (.bool b))
    (hnum : ∀ i, motive (.num i)) (hstr : ∀ s, motive (.str s))
    (harr : ∀ xs, (∀ x ∈ xs, motive x) → motive (.arr xs))
    (hobj : ∀ kvs, (∀ kv ∈ kvs, motive kv.2) → motive (.obj kvs)) : ∀ j, motive j
  | .null => hnull
  | .bool b => hbool b
  | .num i => hnum i
  | .str s => hstr s
  | .arr xs => harr xs (jindElems hnull hbool hnum hstr harr hobj xs)
  | .obj kvs => hobj kvs (jindMembers hnull hbool hnum hstr harr hobj kvs)

/-- Element-wise induction helper for arrays. -/
def jindElems {motive : Json → Prop} (hnull : motive .null) (hbool : ∀ b, motive (.bool b))
    (hnum : ∀ i, motive (.num i)) (hstr : ∀ s, motive (.str s))
    (harr : ∀ xs, (∀ x ∈ xs, motive x) → motive (.arr xs))
    (hobj : ∀ kvs, (∀ kv ∈ kvs, motive kv.2) → motive (.obj kvs)) :
    ∀ xs : List Json, ∀ x ∈ xs, motive x
  | [], x, hx => absurd hx (List.not_mem_nil x)
  | y :: ys, x, hx => by
    rcases List.mem_cons.mp hx with h | h
    · exact h ▸ jind hnull hbool hnum hstr harr hobj y
    · exact jindElems hnull hbool hnum hstr harr hobj ys x h

/-- Member-wise induction helper for objects. -/
def jindMembers {motive : Json → Prop} (hnull : motive .null) (hbool : ∀ b, motive (.bool b))
    (hnum : ∀ i, motive (.num i)) (hstr : ∀ s, motive (.str s))
    (harr : ∀ xs, (∀ x ∈ xs, motive x) → motive (.arr xs))
    (hobj : ∀ kvs, (∀ kv ∈ kvs, motive kv.2) → motive (.obj kvs)) :
    ∀ kvs : List (String × Json), ∀ kv ∈ kvs, motive kv.2
  | [], x, hx => absurd hx (List.not_mem_nil x)
  | y :: ys, x, hx => by
    rcases List.mem_cons.mp hx with h | h
    · exact h ▸ jind hnull hbool hnum hstr harr hobj y.2
    · exact jindMembers hnull hbool hnum hstr harr hobj ys x h

end

/-- The parser inverts the printer on `v`, for any sufficient fuel and any
remainder that does not begin with a digit. -/
def ParsesBack (v : Json) : Prop :=
  ∀ (f : Nat) (rest : List Char), jfuel v ≤ f → noDigitHeadB rest = true →
    parseVal f (printJson v ++ rest) = some (v, rest)

/-- `null` parses back. -/
theorem parsesBack_null : ParsesBack .null := by
  intro f rest hf _
  obtain ⟨g, rfl⟩ : ∃ g, f = g + 1 := ⟨f - 1, by simp [jfuel] at hf; omega⟩
  exact parseVal_null g rest

/-- Booleans parse back. -/
theorem parsesBack_bool (b : Bool) : ParsesBack (.bool b) := by
  intro f rest hf _
  obtain ⟨g, rfl⟩ : ∃ g, f = g + 1 := ⟨f - 1, by simp [jfuel] at hf; omega⟩
  cases b with
  | true => exact parseVal_true g rest
  | false => exact parseVal_false g rest

/-- Strings parse back. -/
theorem parsesBack_str (s : String) : ParsesBack (.str s) := by
  intro f rest hf _
  obtain ⟨g, rfl⟩ : ∃ g, f = g + 1 := ⟨f - 1, by simp [jfuel] at hf; omega⟩
  rw [show printJson (.str s) ++ rest = '"' :: (escBody s.data ++ ('"' :: rest)) from by
    rw [printJson]; simp]
  rw [parseVal_quote, parseStrBody_escBody]

/-- Numbers parse back. -/
theorem parsesBack_num (i : Int) : ParsesBack (.num i) := by
  intro f rest hf hrest
  obtain ⟨g, rfl⟩ : ∃ g, f = g + 1 := ⟨f - 1, by simp [jfuel] at hf; omega⟩
  by_cases hi : i < 0
  · rw [show printJson (.num i) ++ rest = '-' :: (natToChars (-i).toNat ++ rest) from by
      rw [printJson]; simp [intToChars, hi]]
    rw [parseVal_dash, parseNatNum_natToChars _ _ hrest]
    have hm : (-(((-i).toNat : Nat) : Int)) = i := by omega
    show some (Json.num (-(((-i).toNat : Nat) : Int)), rest) = some (Json.num i, rest)
    rw [hm]
  · obtain ⟨c, cs', hn, hd⟩ := natToChars_head i.toNat
    rw [show printJson (.num i) ++ rest = c :: (cs' ++ rest) from by
      rw [printJson]; simp [intToChars, hi, hn]]
    rw [parseVal_digit g c _ hd]
    rw [show c :: (cs' ++ rest) = natToChars i.toNat ++ rest from by simp [hn]]
    rw [parseNatNum_natToChars _ _ hrest]
    have hm : ((i.toNat : Nat) : Int) = i := Int.toNat_of_nonneg (by omega)
    show some (Json.num ((i.toNat : Nat) : Int), rest) = some (Json.num i, rest)
    rw [hm]

/-- The empty array parses back. -/
theorem parsesBack_arr_nil : ParsesBack (.arr []) := by
  intro f rest hf _
  obtain ⟨g, rfl⟩ : ∃ g, f = g + 1 := ⟨f - 1, by simp [jfuel] at hf; omega⟩
  rw [show printJson (.arr []) ++ rest = '[' :: (']' :: rest) from by rw [printJson]; rfl]
  rw [parseVal_lbrack, skipWs_cons _ _ (by decide)]
  rfl

/-- The empty object parses back. -/
theorem parsesBack_obj_nil : ParsesBack (.obj []) := by
  intro f rest hf _
  obtain ⟨g, rfl⟩ : ∃ g, f = g + 1 := ⟨f - 1, by simp [jfuel] at hf; omega⟩
  rw [show printJson (.obj []) ++ rest = '\x7b' :: ('\x7d' :: rest) from by rw [printJson]; rfl]
  rw [parseVal_lbrace, skipWs_cons _ _ (by decide)]
  rfl

/-- A printed non-empty element list parses back to the elements. -/
theorem parseElems_print (xs : List Json) :
    (∀ y ∈ xs, ParsesBack y) → ∀ (x : Json), ParsesBack x →
    ∀ (f : Nat) (rest : List Char), 1 + jfuel x + jfuelElems xs ≤ f →
      parseElems f (printJson x ++ (printElems xs ++ (']' :: rest))) =
        some (x :: xs, rest) := by
  induction xs with
  | nil =>
    intro _ x hx f rest hf
    obtain ⟨g, rfl⟩ : ∃ g, f = g + 1 := ⟨f - 1, by omega⟩
    have hfx : jfuel x ≤ g := by simp [jfuelElems] at hf; omega
    rw [parseElems_succ, hx g _ hfx (noDigit_elems [] rest)]
    rw [show printElems [] ++ (']' :: rest) = ']' :: rest from rfl]
    simp [skipWs_cons, isWsChar]
  | cons y ys ih =>
    intro hys x hx f rest hf
    obtain ⟨g, rfl⟩ : ∃ g, f = g + 1 := ⟨f - 1, by omega⟩
    have hfe : jfuelElems (y :: ys) = 1 + jfuel y + jfuelElems ys := by simp [jfuelElems]
    have hposx := jfuel_pos x
    have hposy := jfuel_pos y
    have hfx : jfuel x ≤ g := by omega
    rw [parseElems_succ, hx g _ hfx (noDigit_elems (y :: ys) rest)]
    have hih : parseElems g (printJson y ++ (printElems ys ++ (']' :: rest))) =
        some (y :: ys, rest) :=
      ih (fun z hz => hys z (by simp [hz])) y (hys y (by simp)) g rest (by omega)
    rw [show printElems (y :: ys) ++ (']' :: rest) =
        ',' :: (' ' :: (printJson y ++ (printElems ys ++ (']' :: rest)))) from by
      rw [printElems]; simp]
    simp [skipWs_cons, isWsChar, parseElems_space, hih]

/-- A printed non-empty member list parses back to the members. -/
theorem parseMembers_print (kvs : List (String × Json)) :
    (∀ kv ∈ kvs, ParsesBack kv.2) → ∀ (k : String) (v : Json), ParsesBack v →
    ∀ (f : Nat) (rest : List Char), 1 + jfuel v + jfuelMembers kvs ≤ f →
      parseMembers f (keyChars k ++ (printJson v ++ (printMembers kvs ++ ('\x7d' :: rest)))) =
        some ((k, v) :: kvs, rest) := by
  induction kvs with
  | nil =>
    intro _ k v hv f rest hf
    obtain ⟨g, rfl⟩ : ∃ g, f = g + 1 := ⟨f - 1, by omega⟩
    have hfv : jfuel v ≤ g := by simp [jfuelMembers] at hf; omega
    have hkey := parseStrBody_escBody k.data
        (':' :: (' ' :: (printJson v ++ ('\x7d' :: rest))))
    have hval : parseVal g (printJson v ++ ('\x7d' :: rest)) =
        some (v, '\x7d' :: rest) :=
      hv g ('\x7d' :: rest) hfv (by rfl)
    rw [parseMembers_succ]
    rw [show keyChars k ++ (printJson v ++ (printMembers [] ++ ('\x7d' :: rest))) =
        '"' :: (escBody k.data ++ ('"' :: (':' :: (' ' ::
          (printJson v ++ ('\x7d' :: rest)))))) from by
      rw [printMembers]; simp [keyChars]]
    simp [skipWs_cons, isWsChar, hkey, parseVal_space, hval]
  | cons kv kvs ih =>
    obtain ⟨k2, v2⟩ := kv
    intro hkvs k v hv f rest hf
    obtain ⟨g, rfl⟩ : ∃ g, f = g + 1 := ⟨f - 1, by omega⟩
    have hfm : jfuelMembers ((k2, v2) :: kvs) = 1 + jfuel v2 + jfuelMembers kvs := by
      simp [jfuelMembers]
    have hposv := jfuel_pos v
    have hposv2 := jfuel_pos v2
    have hfv : jfuel v ≤ g := by omega
    have hkey := parseStrBody_escBody k.data
        (':' :: (' ' :: (printJson v ++ (',' :: (' ' :: (keyChars k2 ++
          (printJson v2 ++ (printMembers kvs ++ ('\x7d' :: rest)))))))))
    have hval : parseVal g (printJson v ++ (',' :: (' ' :: (keyChars k2 ++
        (printJson v2 ++ (printMembers kvs ++ ('\x7d' :: rest))))))) =
        some (v, ',' :: (' ' :: (keyChars k2 ++
          (printJson v2 ++ (printMembers kvs ++ ('\x7d' :: rest)))))) :=
      hv g _ hfv (by rfl)
    have hih : parseMembers g
        (keyChars k2 ++ (printJson v2 ++ (printMembers kvs ++ ('\x7d' :: rest)))) =
        some ((k2, v2) :: kvs, rest) :=
      ih (fun z hz => hkvs z (by simp [hz])) k2 v2 (hkvs (k2, v2) (by simp)) g rest (by omega)
    rw [parseMembers_succ]
    rw [show keyChars k ++ (printJson v ++ (printMembers ((k2, v2) :: kvs) ++ ('\x7d' :: rest))) =
        '"' :: (escBody k.data ++ ('"' :: (':' :: (' ' :: (printJson v ++ (',' :: (' ' ::
          (keyChars k2 ++ (printJson v2 ++ (printMembers kvs ++ ('\x7d' :: rest))))))))))) from by
      rw [printMembers]; simp [keyChars]]
    simp [skipWs_cons, isWsChar, hkey, parseVal_space, parseMembers_space, hval, hih]

/-- Every JSON value parses back to itself from its printed form. -/
theorem parsesBack (v : Json) : ParsesBack v := by
  induction v using jind with
  | hnull => exact parsesBack_null
  | hbool b => exact parsesBack_bool b
  | hnum i => exact parsesBack_num i
  | hstr s => exact parsesBack_str s
  | harr xs ihxs =>
    cases xs with
    | nil => exact parsesBack_arr_nil
    | cons x xs =>
      intro f rest hf hrest
      obtain ⟨g, rfl⟩ : ∃ g, f = g + 1 := ⟨f - 1, by have := jfuel_pos (.arr (x :: xs)); omega⟩
      have hfe : jfuel (.arr (x :: xs)) = 2 + (1 + jfuel x + jfuelElems xs) := by
        simp [jfuel, jfuelElems]
      have hEl : parseElems g (printJson x ++ (printElems xs ++ (']' :: rest))) =
          some (x :: xs, rest) :=
        parseElems_print xs (fun y hy => ihxs y (by simp [hy])) x (ihxs x (by simp)) g rest
          (by omega)
      rw [show printJson (.arr (x :: xs)) ++ rest =
          '[' :: (printJson x ++ (printElems xs ++ (']' :: rest))) from by
        rw [printJson]; simp]
      rw [parseVal_lbrack]
      rw [show skipWs (printJson x ++ (printElems xs ++ (']' :: rest))) =
          printJson x ++ (printElems xs ++ (']' :: rest)) from skipWs_print x _]
      obtain ⟨c, tl, hp, hws, hnb, hnb2⟩ := printJson_head x
      rw [hp, List.cons_append]
      split
      · rename_i r2 heq
        injection heq with hc htl
        exact absurd hc hnb
      · rw [← List.cons_append, ← hp, hEl]
  | hobj kvs ihkvs =>
    cases kvs with
    | nil => exact parsesBack_obj_nil
    | cons kv kvs =>
      obtain ⟨k, v⟩ := kv
      intro f rest hf hrest
      obtain ⟨g, rfl⟩ : ∃ g, f = g + 1 :=
        ⟨f - 1, by have := jfuel_pos (.obj ((k, v) :: kvs)); omega⟩
      have hMe : parseMembers g
          (keyChars k ++ (printJson v ++ (printMembers kvs ++ ('\x7d' :: rest)))) =
          some ((k, v) :: kvs, rest) :=
        parseMembers_print kvs (fun z hz => ihkvs z (by simp [hz])) k v
          (ihkvs (k, v) (by simp)) g rest
          (by have h2 : jfuel (.obj ((k, v) :: kvs)) = 2 + (1 + jfuel v + jfuelMembers kvs) := by
                simp [jfuel, jfuelMembers]
              omega)
      rw [show printJson (.obj ((k, v) :: kvs)) ++ rest =
          '\x7b' :: (keyChars k ++ (printJson v ++ (printMembers kvs ++ ('\x7d' :: rest))))
          from by rw [printJson]; simp]
      rw [parseVal_lbrace]
      rw [show skipWs (keyChars k ++ (printJson v ++ (printMembers kvs ++ ('\x7d' :: rest)))) =
          keyChars k ++ (printJson v ++ (printMembers kvs ++ ('\x7d' :: rest))) from by
        rw [show keyChars k ++ (printJson v ++ (printMembers kvs ++ ('\x7d' :: rest))) =
            '"' :: (escBody k.data ++ ('"' :: (':' :: (' ' ::
              (printJson v ++ (printMembers kvs ++ ('\x7d' :: rest))))))) from by
          simp [keyChars]]
        exact skipWs_cons _ _ (by decide)]
      rw [show keyChars k ++ (printJson v ++ (printMembers kvs ++ ('\x7d' :: rest))) =
          '"' :: (escBody k.data ++ ('"' :: (':' :: (' ' ::
            (printJson v ++ (printMembers kvs ++ ('\x7d' :: rest))))))) from by
        simp [keyChars]]
      split
      · rename_i r2 heq
        injection heq with hc htl
        simp at hc
      · rw [show ('"' : Char) :: (escBody k.data ++ ('"' :: (':' :: (' ' ::
            (printJson v ++ (printMembers kvs ++ ('\x7d' :: rest))))))) =
            keyChars k ++ (printJson v ++ (printMembers kvs ++ ('\x7d' :: rest))) from by
          simp [keyChars]]
        rw [hMe]

/-- The fuel needed for a value is at most twice its printed length. -/
theorem jfuel_le_print (v : Json) : jfuel v ≤ 2 * (printJson v).length := by
  induction v using jind with
  | hnull => simp [jfuel, printJson]
  | hbool b => cases b <;> simp [jfuel, printJson]
  | hnum i =>
    have h : printJson (.num i) = intToChars i := by rw [printJson]
    have h2 : intToChars i ≠ [] := by
      unfold intToChars
      split
      · simp
      · exact (natToChars_digits _).1
    rw [h]
    have h3 : 1 ≤ (intToChars i).length := by
      cases hi : intToChars i with
      | nil => exact absurd hi h2
      | cons a l => simp
    simp [jfuel]
    omega
  | hstr s =>
    have h : printJson (.str s) = '"' :: (escBody s.data ++ ['"']) := by rw [printJson]
    rw [h]
    simp [jfuel]
    omega
  | harr xs ihxs =>
    have hge : ∀ ys : List Json, (∀ y ∈ ys, jfuel y ≤ 2 * (printJson y).length) →
        jfuelElems ys ≤ 2 * (printElems ys).length := by
      intro ys
      induction ys with
      | nil => intro _; simp [jfuelElems, printElems]
      | cons y ys ihy =>
        intro hall
        have h1 := hall y (by simp)
        have h2 := ihy (fun z hz => hall z (by simp [hz]))
        have h3 : printElems (y :: ys) = ',' :: ' ' :: (printJson y ++ printElems ys) := by
          rw [printElems]
        rw [h3]
        simp [jfuelElems]
        omega
    cases xs with
    | nil => simp [jfuel, jfuelElems, printJson]
    | cons x xs =>
      have h3 : printJson (.arr (x :: xs)) =
          '[' :: ((printJson x ++ printElems xs) ++ [']']) := by rw [printJson]
      have h1 := ihxs x (by simp)
      have h2 := hge xs (fun z hz => ihxs z (by simp [hz]))
      rw [h3]
      simp [jfuel, jfuelElems]
      omega
  | hobj kvs ihkvs =>
    have hge : ∀ ms : List (String × Json), (∀ m ∈ ms, jfuel m.2 ≤ 2 * (printJson m.2).length) →
        jfuelMembers ms ≤ 2 * (printMembers ms).length := by
      intro ms
      induction ms with
      | nil => intro _; simp [jfuelMembers, printMembers]
      | cons m ms ihm =>
        obtain ⟨k, v⟩ := m
        intro hall
        have h1 : jfuel v ≤ 2 * (printJson v).length := hall (k, v) (by simp)
        have h2 := ihm (fun z hz => hall z (by simp [hz]))
        have h3 : printMembers ((k, v) :: ms) =
            ',' :: ' ' :: (keyChars k ++ printJson v ++ printMembers ms) := by
          rw [printMembers]
        rw [h3]
        simp [jfuelMembers] at h2 ⊢
        omega
    cases kvs with
    | nil => simp [jfuel, jfuelMembers, printJson]
    | cons kv kvs =>
      obtain ⟨k, v⟩ := kv
      have h3 : printJson (.obj ((k, v) :: kvs)) =
          '\x7b' :: ((keyChars k ++ printJson v ++ printMembers kvs) ++ ['\x7d']) := by
        rw [printJson]
      have h1 : jfuel v ≤ 2 * (printJson v).length := ihkvs (k, v) (by simp)
      have h2 := hge kvs (fun z hz => ihkvs z (by simp [hz]))
      rw [h3]
      simp [jfuel, jfuelMembers] at h1 h2 ⊢
      omega

/-- Round trip: `json.loads` recovers exactly the payload that `json.dumps`
serialized. -/
theorem json_loads_dumps (v : Json) : json_loads (json_dumps v) = some v := by
  have hlen : (json_dumps v).length = (printJson v).length := rfl
  have hfu : jfuel v ≤ 2 * (json_dumps v).length + 2 := by
    have := jfuel_le_print v
    omega
  have h1 : parseVal (2 * (json_dumps v).length + 2) (printJson v ++ []) = some (v, []) :=
    parsesBack v _ [] hfu rfl
  rw [List.append_nil] at h1
  unfold json_loads
  rw [show (json_dumps v).data = printJson v from rfl, h1]
  rfl

/-! ### Python string primitives used by the services and the store -/

/-- Python `str.strip` whitespace class (ASCII part). -/
def pyIsSpace (c : Char) : Bool :=
  c = ' ' || c = '\t' || c = '\n' || c = '\r' || c = '\x0b' || c = '\x0c'

/-- Characters of `s.strip()`. -/
def pyStripChars (cs : List Char) : List Char :=
  ((cs.dropWhile pyIsSpace).reverse.dropWhile pyIsSpace).reverse

/-- Python `str.strip()`. -/
def pyStrip (s : String) : String := String.mk (pyStripChars s.data)

/-- Python `str.lower()`; modelled on ASCII letters, which is all the inputs
exercised here use (digits and CJK characters are fixed points of `lower`). -/
def pyLower (s : String) : String := String.mk (s.data.map Char.toLower)

/-- Python substring containment `sub in s`. -/
def hasSub (sub : List Char) : List Char → Bool
  | [] => sub.isEmpty
  | c :: rest => sub.isPrefixOf (c :: rest) || hasSub sub rest

/-- Characters-level `str.split("\n")`. -/
def splitNlChars : List Char → List (List Char)
  | [] => [[]]
  | c :: cs =>
    if c = '\n' then [] :: splitNlChars cs
    else
      match splitNlChars cs with
      | h :: t => (c :: h) :: t
      | [] => [[c]]

/-- Python `str.split("\n")`. -/
def pySplitNl (s : String) : List String := (splitNlChars s.data).map String.mk

/-- Characters-level `"\n".join`. -/
def joinNlChars : List (List Char) → List Char
  | [] => []
  | [l] => l
  | l :: ls => l ++ '\n' :: joinNlChars ls

/-- Python `"\n".join(lines)`. -/
def pyJoinNl (ls : List String) : String := String.mk (joinNlChars (ls.map String.data))

/-- Binary (code-point) strict order on character lists, as SQLite compares
TEXT values under the default BLOB-like collation. -/
def charsLtB : List Char → List Char → Bool
  | [], [] => false
  | [], _ :: _ => true
  | _ :: _, [] => false
  | a :: as, b :: bs =>
    if a.toNat < b.toNat then true
    else if b.toNat < a.toNat then false
    else charsLtB as bs

/-- Strict order on strings (used for `ORDER BY created_at`). -/
def strLtB (s t : String) : Bool := charsLtB s.data t.data

/-- Python `float(x)` applied to a decoded JSON value: numbers and booleans
convert, numeric strings parse (modelled for integer literals), everything
else raises. -/
def pyFloatStr : List Char → Option Int
  | '-' :: ds => if !ds.isEmpty && ds.all isDigitB then some (-(digitsVal ds : Int)) else none
  | '+' :: ds => if !ds.isEmpty && ds.all isDigitB then some ((digitsVal ds : Int)) else none
  | ds => if !ds.isEmpty && ds.all isDigitB then some ((digitsVal ds : Int)) else none

/-- Python `float(x)`; `none` models a raised `TypeError`/`ValueError`. -/
def pyFloat : Json → Option Int
  | .num n => some n
  | .bool b => some (if b then 1 else 0)
  | .str s => pyFloatStr (pyStripChars s.data)
  | _ => none

/-- Python `dict.get(k)` on a decoded JSON object: later duplicate keys
override earlier ones, as in `json.loads`. -/
def dictGet (kvs : List (String × Json)) (k : String) : Option Json :=
  match kvs with
  | [] => none
  | (k2, v) :: rest =>
    match dictGet rest k with
    | some w => some w
    | none => if k2 = k then some v else none

/-- Python `d.get(k) is not None`: a key present with JSON `null` counts as
absent, exactly as in the score normalizer's `is not None` checks. -/
def getNN (kvs : List (String × Json)) (k : String) : Option Json :=
  match dictGet kvs k with
  | some Json.null => none
  | some v => some v
  | none => none

/-- Result of the services' `_parse_response`: either a decoded JSON payload
or the error dictionary `{error: msg, raw_text: raw}`. -/
inductive ParseOutcome where
  | ok (j : Json)
  | errRaw (msg : String) (raw : String)

namespace DeepSeekService

/-- `DeepSeekService._normalize_exam_type`. -/
def _normalize_exam_type (exam_type : String) : String :=
  let value := pyLower (pyStrip exam_type)
  if hasSub ("一".data) value.data || hasSub ("1".data) value.data then ("English I")
  else if hasSub ("二".data) value.data || hasSub ("2".data) value.data then ("English II")
  else if hasSub ("english ii".data) value.data then ("English II")
  else ("English I")

/-- `DeepSeekService._normalize_paper_type`. -/
def _normalize_paper_type (paper_type : String) : String :=
  let value := pyLower (pyStrip paper_type)
  if hasSub ("small".data) value.data || hasSub ("小".data) value.data then ("small_essay")
  else if hasSub ("large".data) value.data || hasSub ("大".data) value.data then ("large_essay")
  else ("large_essay")

/-- `DeepSeekService._get_max_score`. -/
def _get_max_score (exam_type paper_type : String) : Nat :=
  if exam_type = ("English I") then (if paper_type = ("small_essay") then 10 else 20)
  else if exam_type = ("English II") then (if paper_type = ("small_essay") then 10 else 15)
  else 20

/-- The code-fence stripping prologue of `DeepSeekService._parse_response`:
strip, then drop a leading and a trailing fence line (each only when the
remaining list is non-empty). -/
def _strip_fences (text : String) : String :=
  let raw := pyStrip text
  if ("```".data).isPrefixOf raw.data then
    let lines := pySplitNl raw
    let lines :=
      match lines with
      | l0 :: rest => if ("```".data).isPrefixOf l0.data then rest else l0 :: rest
      | [] => []
    let lines :=
      match lines.getLast? with
      | some ll => if ("```".data).isPrefixOf ll.data then lines.dropLast else lines
      | none => lines
    pyJoinNl lines
  else raw

/-- The first-brace/last-brace rescue scan of `_parse_response`: slice from
the first `'{'` to the last `'}'` and try `json.loads` again; `none` covers
both a missing brace and a failed re-parse. -/
def _brace_fallback (raw : String) : Option Json :=
  match raw.data.findIdx? (fun c => c = '\x7b'),
        (match raw.data.reverse.findIdx? (fun c => c = '\x7d') with
         | some i => some (raw.data.length - 1 - i)
         | none => none) with
  | some s, some e => json_loads (String.mk ((raw.data.drop s).take (e + 1 - s)))
  | _, _ => none

/-- `DeepSeekService._parse_response`. -/
def _parse_response (text : String) : ParseOutcome :=
  let raw := _strip_fences text
  match json_loads raw with
  | some j => ParseOutcome.ok j
  | none =>
    match _brace_fallback raw with
    | some j => ParseOutcome.ok j
    | none => ParseOutcome.errRaw ("Failed to parse JSON response from DeepSeek") raw

end DeepSeekService

namespace GeminiService

/-- `GeminiService._normalize_exam_type`. -/
def _normalize_exam_type (exam_type : String) : String :=
  let value := pyLower (pyStrip exam_type)
  if hasSub ("一".data) value.data || hasSub ("1".data) value.data then ("English I")
  else if hasSub ("二".data) value.data || hasSub ("2".data) value.data then ("English II")
  else if hasSub ("english ii".data) value.data then ("English II")
  else ("English I")

/-- `GeminiService._normalize_paper_type`. -/
def _normalize_paper_type (paper_type : String) : String :=
  let value := pyLower (pyStrip paper_type)
  if hasSub ("small".data) value.data || hasSub ("小".data) value.data then ("small_essay")
  else if hasSub ("large".data) value.data || hasSub ("大".data) value.data then ("large_essay")
  else ("large_essay")

/-- `GeminiService._get_max_score`. -/
def _get_max_score (exam_type paper_type : String) : Nat :=
  if exam_type = ("English I") then (if paper_type = ("small_essay") then 10 else 20)
  else if exam_type = ("English II") then (if paper_type = ("small_essay") then 10 else 15)
  else 20

/-- The code-fence stripping prologue of `GeminiService._parse_response`.
Unlike DeepSeek's, the index accesses `lines[0]` and `lines[-1]` are not
guarded by a non-emptiness test, so dropping the first line of a one-line
fence leaves `lines == []` and `lines[-1]` raises `IndexError`, modelled by
`Except.error`. -/
def _strip_fences (text : String) : Except Unit String :=
  let t := pyStrip text
  if ("```".data).isPrefixOf t.data then
    match pySplitNl t with
    | [] => .error ()
    | l0 :: rest =>
      let lines := if ("```".data).isPrefixOf l0.data then rest else l0 :: rest
      match lines.getLast? with
      | none => .error ()
      | some ll =>
        let lines := if ("```".data).isPrefixOf ll.data then lines.dropLast else lines
        .ok (pyJoinNl lines)
  else .ok t

/-- The first-brace/last-brace rescue scan of `GeminiService._parse_response`. -/
def _brace_fallback (raw : String) : Option Json :=
  match raw.data.findIdx? (fun c => c = '\x7b'),
        (match raw.data.reverse.findIdx? (fun c => c = '\x7d') with
         | some i => some (raw.data.length - 1 - i)
         | none => none) with
  | some s, some e => json_loads (String.mk ((raw.data.drop s).take (e + 1 - s)))
  | _, _ => none

/-- `GeminiService._parse_response`; `Except.error` models the unhandled
`IndexError` escaping the helper. -/
def _parse_response (text : String) : Except Unit ParseOutcome :=
  match _strip_fences text with
  | .error e => .error e
  | .ok t =>
    .ok (match json_loads t with
      | some j => ParseOutcome.ok j
      | none =>
        match _brace_fallback t with
        | some j => ParseOutcome.ok j
        | none => ParseOutcome.errRaw ("Failed to parse JSON response") t)

end GeminiService

/-! ### Record store (`backend/crud.py`) -/

/-- `EssayStatus.ACTIVE`. -/
def EssayStatus.ACTIVE : String := "active"

/-- `EssayStatus.DELETED`. -/
def EssayStatus.DELETED : String := "deleted"

/-- Row of the `essays` table. -/
structure EssayRow where
  id : Nat
  topic : String
  user_content : String
  task_type : String
  ai_analysis : Option String
  created_at : String
  status : String

/-- The `essays` table: rows plus the AUTOINCREMENT counter. -/
structure EssaysDB where
  rows : List EssayRow
  nextId : Nat

/-- Row of the `kaoyan_records` table, including the four denormalized score
columns. -/
structure KaoyanRow where
  id : Nat
  exam_type : String
  paper_type : String
  topic : String
  user_content : String
  total_score : Option Int
  language_score : Option Int
  structure_score : Option Int
  logic_score : Option Int
  ai_analysis : Option String
  created_at : String
  status : String

/-- The `kaoyan_records` table. -/
structure KaoyanDB where
  rows : List KaoyanRow
  nextId : Nat

/-- Insert an element into a list sorted descending by a string key. -/
def insertByDesc (key : α → String) (x : α) : List α → List α
  | [] => [x]
  | y :: ys => if strLtB (key y) (key x) then x :: y :: ys else y :: insertByDesc key x ys

/-- Sort a list descending by a string key (insertion sort; SQLite's tie
order for equal keys is unspecified, and the spec leaves it implementer's
choice). -/
def sortByDesc (key : α → String) : List α → List α
  | [] => []
  | x :: xs => insertByDesc key x (sortByDesc key xs)

/-- `create_essay`: insert a new active row with the serialized analysis and
return the updated table and `cursor.lastrowid`; `now` stands for
`datetime.utcnow().isoformat()`. -/
def create_essay (db : EssaysDB) (topic user_content task_type : String)
    (ai_analysis : Json) (now : String) : EssaysDB × Nat :=
  (⟨db.rows ++ [⟨db.nextId, topic, user_content, task_type,
      some (json_dumps ai_analysis), now, EssayStatus.ACTIVE⟩], db.nextId + 1⟩,
   db.nextId)

/-- `get_essay`: single-row lookup by id. -/
def get_essay (db : EssaysDB) (essay_id : Nat) : Option EssayRow :=
  db.rows.find? (fun r => r.id == essay_id)

/-- `get_active_essays`: rows with `status = active`, newest first. -/
def get_active_essays (db : EssaysDB) : List EssayRow :=
  sortByDesc (fun r => r.created_at) (db.rows.filter (fun r => r.status == EssayStatus.ACTIVE))

/-- `delete_essay`: soft path flips `status` to deleted, hard path removes
the row; a missing id is a no-op either way. -/
def delete_essay (db : EssaysDB) (essay_id : Nat) (soft_delete : Bool) : EssaysDB :=
  if soft_delete then
    ⟨db.rows.map (fun r => if r.id = essay_id then
        ⟨r.id, r.topic, r.user_content, r.task_type, r.ai_analysis, r.created_at,
          EssayStatus.DELETED⟩ else r), db.nextId⟩
  else
    ⟨db.rows.filter (fun r => !(r.id == essay_id)), db.nextId⟩

/-- IELTS trajectory summary, the dictionary built by `get_trajectory_data`. -/
structure EssaySummary where
  id : Nat
  index : Nat
  created_at : String
  topic : String
  task_type : String
  scores : Json
  weaknesses : Json

/-- Kaoyan trajectory summary, the dictionary built by
`get_kaoyan_trajectory_data`. -/
structure KaoyanSummary where
  id : Nat
  index : Nat
  created_at : String
  topic : String
  exam_type : String
  paper_type : String
  total_score : Json
  band : Json
  evaluation_summary : Json

/-- Body of one `get_trajectory_data` loop iteration: skip falsy or
unparsable analysis text (`ok none`); `analysis.get` on a decoded non-mapping
and `feedback.get` on a non-mapping `feedback` value raise `AttributeError`
(`error`); otherwise build the summary dictionary. -/
def summarize_essay (idx : Nat) (e : EssayRow) : Except Unit (Option EssaySummary) :=
  match e.ai_analysis with
  | none => .ok none
  | some s =>
    if s = "" then .ok none
    else
      match json_loads s with
      | none => .ok none
      | some analysis =>
        match analysis with
        | .obj akvs =>
          match (dictGet akvs "feedback").getD (Json.obj []) with
          | .obj fkvs =>
            .ok (some ⟨e.id, idx, e.created_at, e.topic, e.task_type,
              (dictGet akvs "scores").getD (Json.obj []),
              (dictGet fkvs "weaknesses").getD (Json.arr [])⟩)
          | _ => .error ()
        | _ => .error ()

/-- The `enumerate(essays, start=1)` loop of `get_trajectory_data`; an
exception from any iteration aborts the whole call. -/
def essayTrajLoop (idx : Nat) : List EssayRow → Except Unit (List EssaySummary)
  | [] => .ok []
  | e :: es =>
    match summarize_essay idx e with
    | .error u => .error u
    | .ok s? =>
      match essayTrajLoop (idx + 1) es with
      | .error u => .error u
      | .ok rest =>
        match s? with
        | some s => .ok (s :: rest)
        | none => .ok rest

/-- `get_trajectory_data`: reverse the newest-first active list to oldest
first, then summarize with 1-based indices. -/
def get_trajectory_data (db : EssaysDB) : Except Unit (List EssaySummary) :=
  essayTrajLoop 1 (get_active_essays db).reverse

/-- Body of one `get_kaoyan_trajectory_data` loop iteration.  The decoded
analysis itself is guarded by `isinstance(analysis, dict)`, but
`score.get(...)` still raises `AttributeError` (`error`) when the `score`
field holds a non-mapping. -/
def summarize_kaoyan (idx : Nat) (r : KaoyanRow) : Except Unit (Option KaoyanSummary) :=
  match r.ai_analysis with
  | none => .ok none
  | some s =>
    if s = "" then .ok none
    else
      match json_loads s with
      | none => .ok none
      | some analysis =>
        match
          (match analysis with
           | .obj akvs => (dictGet akvs "score").getD (Json.obj [])
           | _ => Json.obj []) with
        | .obj skvs =>
          .ok (some ⟨r.id, idx, r.created_at, r.topic, r.exam_type, r.paper_type,
            (match dictGet skvs "total_score" with
             | some v => v
             | none =>
               match r.total_score with
               | some x => Json.num x
               | none => Json.null),
            (dictGet skvs "band").getD Json.null,
            (dictGet skvs "evaluation_summary").getD (Json.str "")⟩)
        | _ => .error ()

/-- The `enumerate(records, start=1)` loop of `get_kaoyan_trajectory_data`. -/
def kaoyanTrajLoop (idx : Nat) : List KaoyanRow → Except Unit (List KaoyanSummary)
  | [] => .ok []
  | r :: rs =>
    match summarize_kaoyan idx r with
    | .error u => .error u
    | .ok s? =>
      match kaoyanTrajLoop (idx + 1) rs with
      | .error u => .error u
      | .ok rest =>
        match s? with
        | some s => .ok (s :: rest)
        | none => .ok rest

/-- `get_active_kaoyan_records`: active rows, newest first. -/
def get_active_kaoyan_records (db : KaoyanDB) : List KaoyanRow :=
  sortByDesc (fun r => r.created_at) (db.rows.filter (fun r => r.status == EssayStatus.ACTIVE))

/-- `get_kaoyan_trajectory_data`. -/
def get_kaoyan_trajectory_data (db : KaoyanDB) : Except Unit (List KaoyanSummary) :=
  kaoyanTrajLoop 1 (get_active_kaoyan_records db).reverse

/-- One guarded conversion of the score normalizer: an absent field stays
absent, a present field must convert with `float` or the whole `try` block
fails (`none`). -/
def convOpt : Option Json → Option (Option Int)
  | none => some none
  | some v =>
    match pyFloat v with
    | some x => some (some x)
    | none => none

/-- The `score` sub-object selected by the normalizer:
`(ai_analysis or ...).get("score", ...)` when `ai_analysis` is a dict, and the
empty dict otherwise. -/
def scoreOf (ai_analysis : Json) : Json :=
  match ai_analysis with
  | .obj kvs => (dictGet kvs "score").getD (Json.obj [])
  | _ => Json.obj []

/-- The `try`/`except` score-extraction block of `create_kaoyan_record`,
returning the four denormalized columns
`(total_score, language_score, structure_score, logic_score)`. -/
def kaoyanScoreColumns (ai_analysis : Json) : Option Int × Option Int × Option Int × Option Int :=
  match scoreOf ai_analysis with
  | .obj skvs =>
    if (getNN skvs "total").isSome || (getNN skvs "language_score").isSome then
      match convOpt (getNN skvs "total"), convOpt (getNN skvs "language_score"),
            convOpt (getNN skvs "structure_score"), convOpt (getNN skvs "logic_score") with
      | some t, some l, some st, some lo => (t, l, st, lo)
      | _, _, _, _ => (none, none, none, none)
    else
      match getNN skvs "total_score" with
      | some v =>
        match pyFloat v with
        | some x => (some x, none, none, none)
        | none => (none, none, none, none)
      | none => (none, none, none, none)
  | _ => (none, none, none, none)

/-- `create_kaoyan_record`: extract the denormalized scores (best effort,
all-or-nothing on failure), serialize the analysis, insert an active row. -/
def create_kaoyan_record (db : KaoyanDB) (exam_type paper_type topic user_content : String)
    (ai_analysis : Json) (now : String) : KaoyanDB × Nat :=
  let cols := kaoyanScoreColumns ai_analysis
  (⟨db.rows ++ [⟨db.nextId, exam_type, paper_type, topic, user_content,
      cols.1, cols.2.1, cols.2.2.1, cols.2.2.2,
      some (json_dumps ai_analysis), now, EssayStatus.ACTIVE⟩], db.nextId + 1⟩,
   db.nextId)

/-- `get_kaoyan_record`. -/
def get_kaoyan_record (db : KaoyanDB) (record_id : Nat) : Option KaoyanRow :=
  db.rows.find? (fun r => r.id == record_id)

/-- `delete_kaoyan_record`. -/
def delete_kaoyan_record (db : KaoyanDB) (record_id : Nat) (soft_delete : Bool) : KaoyanDB :=
  if soft_delete then
    ⟨db.rows.map (fun r => if r.id = record_id then
        ⟨r.id, r.exam_type, r.paper_type, r.topic, r.user_content, r.total_score,
          r.language_score, r.structure_score, r.logic_score, r.ai_analysis,
          r.created_at, EssayStatus.DELETED⟩ else r), db.nextId⟩
  else
    ⟨db.rows.filter (fun r => !(r.id == record_id)), db.nextId⟩

/-! ### Order lemmas for `ORDER BY created_at DESC` -/

/-- `charsLtB` is asymmetric. -/
theorem charsLtB_asymm : ∀ (a b : List Char), charsLtB a b = true → charsLtB b a = false := by
  intro a
  induction a with
  | nil => intro b h; cases b <;> simp_all [charsLtB]
  | cons x xs ih =>
    intro b h
    cases b with
    | nil => simp_all [charsLtB]
    | cons y ys =>
      simp only [charsLtB] at h ⊢
      by_cases h1 : x.toNat < y.toNat
      · have h2 : ¬ y.toNat < x.toNat := by omega
        simp [h1, h2]
      · by_cases h2 : y.toNat < x.toNat
        · simp [h1, h2] at h
        · simp only [h1, h2, if_neg, if_false] at h ⊢
          simp [h1, h2, ih ys h]

/-- Two lists that are not strictly ordered either way are equal. -/
theorem charsLtB_eq : ∀ (a b : List Char),
    charsLtB a b = false → charsLtB b a = false → a = b := by
  intro a
  induction a with
  | nil => intro b h1 h2; cases b <;> simp_all [charsLtB]
  | cons x xs ih =>
    intro b h1 h2
    cases b with
    | nil => simp_all [charsLtB]
    | cons y ys =>
      simp only [charsLtB] at h1 h2
      by_cases hx : x.toNat < y.toNat
      · simp [hx] at h1
      · by_cases hy : y.toNat < x.toNat
        · simp [hx, hy] at h1 h2
        · have hxy : x = y := Char.ext (by
            have e1 : x.toNat = x.val.toNat := rfl
            have e2 : y.toNat = y.val.toNat := rfl
            have hn : x.val.toNat = y.val.toNat := by omega
            exact UInt32.toNat.inj hn)
          subst hxy
          simp [hx, hy] at h1 h2
          rw [ih ys h1 h2]

/-- `charsLtB` is transitive. -/
theorem charsLtB_trans : ∀ (a b c : List Char),
    charsLtB a b = true → charsLtB b c = true → charsLtB a c = true := by
  intro a
  induction a with
  | nil =>
    intro b c h1 h2
    cases b with
    | nil => simp_all [charsLtB]
    | cons y ys => cases c <;> simp_all [charsLtB]
  | cons x xs ih =>
    intro b c h1 h2
    cases b with
    | nil => simp_all [charsLtB]
    | cons y ys =>
      cases c with
      | nil => simp_all [charsLtB]
      | cons z zs =>
        simp only [charsLtB] at h1 h2 ⊢
        by_cases hxy : x.toNat < y.toNat
        · by_cases hyz : y.toNat < z.toNat
          · simp [show x.toNat < z.toNat from by omega]
          · by_cases hzy : z.toNat < y.toNat
            · simp [hyz, hzy] at h2
            · have : y.toNat = z.toNat := by omega
              simp [show x.toNat < z.toNat from by omega]
        · by_cases hyx : y.toNat < x.toNat
          · simp [hxy, hyx] at h1
          · have hxyeq : x.toNat = y.toNat := by omega
            simp [hxy, hyx] at h1
            by_cases hyz : y.toNat < z.toNat
            · simp [show x.toNat < z.toNat from by omega]
            · by_cases hzy : z.toNat < y.toNat
              · simp [hyz, hzy] at h2
              · simp [hyz, hzy] at h2
                have h3 : ¬ x.toNat < z.toNat := by omega
                have h4 : ¬ z.toNat < x.toNat := by omega
                simp [h3, h4, ih ys zs h1 h2]

/-- Asymmetry for the string order. -/
theorem strLtB_asymm (s t : String) (h : strLtB s t = true) : strLtB t s = false :=
  charsLtB_asymm s.data t.data h

/-- Antisymmetry-to-equality for the string order. -/
theorem strLtB_eq (s t : String) (h1 : strLtB s t = false) (h2 : strLtB t s = false) :
    s = t := by
  have h := charsLtB_eq s.data t.data h1 h2
  cases s
  cases t
  exact congrArg String.mk h

/-- Transitivity for the string order. -/
theorem strLtB_trans (s t u : String) (h1 : strLtB s t = true) (h2 : strLtB t u = true) :
    strLtB s u = true :=
  charsLtB_trans s.data t.data u.data h1 h2

/-- `insertByDesc` is a permutation of consing. -/
theorem insertByDesc_perm (key : α → String) (x : α) :
    ∀ l : List α, List.Perm (insertByDesc key x l) (x :: l) := by
  intro l
  induction l with
  | nil => simp [insertByDesc]
  | cons y ys ih =>
    simp only [insertByDesc]
    by_cases h : strLtB (key y) (key x) = true
    · rw [if_pos h]
    · rw [if_neg h]
      exact List.Perm.trans (List.Perm.cons y ih) (List.Perm.swap x y ys)

/-- `sortByDesc` is a permutation of its input. -/
theorem sortByDesc_perm (key : α → String) :
    ∀ l : List α, List.Perm (sortByDesc key l) l := by
  intro l
  induction l with
  | nil => simp [sortByDesc]
  | cons x xs ih =>
    simp only [sortByDesc]
    exact ((insertByDesc_perm key x _).trans (List.Perm.cons x ih))

/-- Pairwise non-ascending order (each later key is not greater). -/
def SortedDescBy (key : α → String) (l : List α) : Prop :=
  l.Pairwise (fun a b => strLtB (key a) (key b) = false)

/-- Inserting keeps the descending order. -/
theorem insertByDesc_sorted (key : α → String) (x : α) :
    ∀ l : List α, SortedDescBy key l → SortedDescBy key (insertByDesc key x l) := by
  intro l
  induction l with
  | nil => intro _; simp [insertByDesc, SortedDescBy]
  | cons y ys ih =>
    intro hs
    rw [SortedDescBy, List.pairwise_cons] at hs
    obtain ⟨hy, hys⟩ := hs
    simp only [insertByDesc]
    by_cases h : strLtB (key y) (key x) = true
    · rw [if_pos h]
      rw [SortedDescBy, List.pairwise_cons]
      constructor
      · intro z hz
        rcases List.mem_cons.mp hz with h1 | h1
        · subst h1; exact strLtB_asymm _ _ h
        · by_cases hc : strLtB (key x) (key z) = true
          · have := strLtB_trans _ _ _ h hc
            exact absurd this (by simp [hy z h1])
          · simpa using hc
      · rw [SortedDescBy, List.pairwise_cons] at *
        exact ⟨hy, hys⟩
    · rw [if_neg h]
      rw [SortedDescBy, List.pairwise_cons]
      constructor
      · intro z hz
        have hperm := insertByDesc_perm key x ys
        have hz2 : z ∈ x :: ys := hperm.mem_iff.mp hz
        rcases List.mem_cons.mp hz2 with h1 | h1
        · subst h1; simpa using h
        · exact hy z h1
      · exact ih hys

/-- `sortByDesc` sorts. -/
theorem sortByDesc_sorted (key : α → String) :
    ∀ l : List α, SortedDescBy key (sortByDesc key l) := by
  intro l
  induction l with
  | nil => simp [sortByDesc, SortedDescBy]
  | cons x xs ih => exact insertByDesc_sorted key x _ ih

/-- Two permuted lists that are both sorted descending with pairwise distinct
keys are equal. -/
theorem sortedDescBy_unique (key : α → String) (l1 l2 : List α)
    (hp : List.Perm l1 l2) (h1 : SortedDescBy key l1) (h2 : SortedDescBy key l2)
    (hnd : l1.Pairwise (fun a b => key a ≠ key b)) : l1 = l2 := by
  have hnd2 : l2.Pairwise (fun a b => key a ≠ key b) :=
    (List.Perm.pairwise_iff (fun h he => h he.symm) hp).mp hnd
  have step : ∀ a b : α, strLtB (key a) (key b) = false ∧ key a ≠ key b →
      strLtB (key b) (key a) = true ∨ a = b := by
    intro a b hab
    obtain ⟨hle, hne⟩ := hab
    by_cases hlt : strLtB (key b) (key a) = true
    · exact Or.inl hlt
    · simp only [Bool.not_eq_true] at hlt
      exact absurd (strLtB_eq _ _ hle hlt) hne
  haveI : IsAntisymm α (fun a b => strLtB (key b) (key a) = true ∨ a = b) := ⟨by
    intro a b hab hba
    rcases hab with ha | ha
    · rcases hba with hb | hb
      · exact absurd hb (by simp [strLtB_asymm _ _ ha])
      · exact hb.symm
    · exact ha⟩
  have hs1 : List.Sorted (fun a b => strLtB (key b) (key a) = true ∨ a = b) l1 :=
    (List.Pairwise.and h1 hnd).imp (fun h => step _ _ h)
  have hs2 : List.Sorted (fun a b => strLtB (key b) (key a) = true ∨ a = b) l2 :=
    (List.Pairwise.and h2 hnd2).imp (fun h => step _ _ h)
  exact List.eq_of_perm_of_sorted hp hs1 hs2

/-! ### Trajectory extraction lemmas -/

/-- A record whose stored analysis text is truthy and decodes as JSON; these
are exactly the records that are not silently skipped. -/
def essayTruthyParse (e : EssayRow) : Bool :=
  match e.ai_analysis with
  | none => false
  | some s => !(s = "") && (json_loads s).isSome

/-- A record the IELTS summarizer handles without raising: the analysis
decodes to a mapping whose `feedback` field (when present) is a mapping. -/
def essayBenign (e : EssayRow) : Bool :=
  match e.ai_analysis with
  | none => false
  | some s =>
    if s = "" then false
    else
      match json_loads s with
      | some (Json.obj akvs) =>
        (match (dictGet akvs "feedback").getD (Json.obj []) with
         | Json.obj _ => true
         | _ => false)
      | _ => false

/-- A record the Kaoyan summarizer handles without raising: unparsable or
non-mapping analyses are fine, only a non-mapping `score` field raises. -/
def kaoyanBenign (r : KaoyanRow) : Bool :=
  match r.ai_analysis with
  | none => true
  | some s =>
    if s = "" then true
    else
      match json_loads s with
      | none => true
      | some (Json.obj akvs) =>
        (match (dictGet akvs "score").getD (Json.obj []) with
         | Json.obj _ => true
         | _ => false)
      | some _ => true

/-- Non-truthy or unparsable analyses are silently skipped by the IELTS
summarizer. -/
theorem summarize_essay_skip (idx : Nat) (e : EssayRow)
    (h : essayTruthyParse e = false) : summarize_essay idx e = .ok none := by
  unfold essayTruthyParse at h
  unfold summarize_essay
  match he : e.ai_analysis with
  | none => rfl
  | some s =>
    rw [he] at h
    simp only [] at h ⊢
    by_cases hs : s = ""
    · rw [if_pos hs]
    · rw [if_neg hs]
      simp [hs] at h
      rw [h]

/-- A benign record is summarized with the given index and its own immutable
fields. -/
theorem summarize_essay_benign (idx : Nat) (e : EssayRow) (h : essayBenign e = true) :
    ∃ sc wk, summarize_essay idx e =
      .ok (some ⟨e.id, idx, e.created_at, e.topic, e.task_type, sc, wk⟩) := by
  unfold essayBenign at h
  unfold summarize_essay
  match he : e.ai_analysis with
  | none => rw [he] at h; simp at h
  | some s =>
    rw [he] at h
    simp only [] at h ⊢
    by_cases hs : s = ""
    · rw [if_pos hs] at h; simp at h
    · rw [if_neg hs] at h ⊢
      match hl : json_loads s with
      | none => rw [hl] at h; simp at h
      | some (Json.null) => rw [hl] at h; simp at h
      | some (Json.bool b) => rw [hl] at h; simp at h
      | some (Json.num n) => rw [hl] at h; simp at h
      | some (Json.str t) => rw [hl] at h; simp at h
      | some (Json.arr xs) => rw [hl] at h; simp at h
      | some (Json.obj akvs) =>
        rw [hl] at h
        simp only [] at h ⊢
        match hf : (dictGet akvs "feedback").getD (Json.obj []) with
        | Json.obj fkvs =>
          exact ⟨_, _, rfl⟩
        | Json.null => rw [hf] at h; simp at h
        | Json.bool b => rw [hf] at h; simp at h
        | Json.num n => rw [hf] at h; simp at h
        | Json.str t => rw [hf] at h; simp at h
        | Json.arr xs => rw [hf] at h; simp at h

/-- A benign record is summarized (some summary comes out) with the given
index. -/
theorem summarize_essay_emit (idx : Nat) (e : EssayRow) (hb : essayBenign e = true) :
    ∃ s, summarize_essay idx e = .ok (some s) ∧ s.index = idx := by
  obtain ⟨sc, wk, hs⟩ := summarize_essay_benign idx e hb
  exact ⟨_, hs, rfl⟩

/-- A benign record is truthy-parsing. -/
theorem essayBenign_truthy (e : EssayRow) (h : essayBenign e = true) :
    essayTruthyParse e = true := by
  unfold essayBenign at h
  unfold essayTruthyParse
  match he : e.ai_analysis with
  | none => rw [he] at h; simp at h
  | some s =>
    rw [he] at h
    simp only [] at h ⊢
    by_cases hs : s = ""
    · rw [if_pos hs] at h; simp at h
    · rw [if_neg hs] at h
      match hl : json_loads s with
      | none => rw [hl] at h; simp at h
      | some v => simp [hs, hl]

/-- A Kaoyan record whose stored analysis text is truthy and decodes. -/
def kaoyanTruthyParse (r : KaoyanRow) : Bool :=
  match r.ai_analysis with
  | none => false
  | some s => !(s = "") && (json_loads s).isSome

/-- Non-truthy or unparsable analyses are silently skipped by the Kaoyan
summarizer. -/
theorem summarize_kaoyan_skip (idx : Nat) (r : KaoyanRow)
    (h : kaoyanTruthyParse r = false) : summarize_kaoyan idx r = .ok none := by
  unfold kaoyanTruthyParse at h
  unfold summarize_kaoyan
  match he : r.ai_analysis with
  | none => rfl
  | some s =>
    rw [he] at h
    simp only [] at h ⊢
    by_cases hs : s = ""
    · rw [if_pos hs]
    · rw [if_neg hs]
      simp [hs] at h
      rw [h]

/-- A truthy-parsing benign Kaoyan record is summarized with the given index
and its own immutable fields. -/
theorem summarize_kaoyan_benign (idx : Nat) (r : KaoyanRow)
    (hb : kaoyanBenign r = true) (ht : kaoyanTruthyParse r = true) :
    ∃ ts bd ev, summarize_kaoyan idx r =
      .ok (some ⟨r.id, idx, r.created_at, r.topic, r.exam_type, r.paper_type,
        ts, bd, ev⟩) := by
  unfold kaoyanBenign at hb
  unfold kaoyanTruthyParse at ht
  unfold summarize_kaoyan
  match he : r.ai_analysis with
  | none => rw [he] at ht; simp at ht
  | some s =>
    rw [he] at hb ht
    simp only [] at hb ht ⊢
    by_cases hs : s = ""
    · simp [hs] at ht
    · rw [if_neg hs] at hb ⊢
      match hl : json_loads s with
      | none => rw [hl] at ht; simp [hs] at ht
      | some (Json.null) => exact ⟨_, _, _, rfl⟩
      | some (Json.bool b) => exact ⟨_, _, _, rfl⟩
      | some (Json.num n) => exact ⟨_, _, _, rfl⟩
      | some (Json.str t) => exact ⟨_, _, _, rfl⟩
      | some (Json.arr xs) => exact ⟨_, _, _, rfl⟩
      | some (Json.obj akvs) =>
        rw [hl] at hb
        simp only [] at hb ⊢
        match hf : (dictGet akvs "score").getD (Json.obj []) with
        | Json.obj skvs => exact ⟨_, _, _, rfl⟩
        | Json.null => rw [hf] at hb; simp at hb
        | Json.bool b => rw [hf] at hb; simp at hb
        | Json.num n => rw [hf] at hb; simp at hb
        | Json.str t => rw [hf] at hb; simp at hb
        | Json.arr xs => rw [hf] at hb; simp at hb

/-- The IELTS summarizer stamps the summary with the loop index. -/
theorem summarize_essay_index (idx : Nat) (e : EssayRow) (s : EssaySummary)
    (h : summarize_essay idx e = .ok (some s)) : s.index = idx := by
  unfold summarize_essay at h
  split at h
  · simp at h
  · split at h
    · simp at h
    · split at h
      · simp at h
      · split at h
        · split at h
          · simp only [Except.ok.injEq, Option.some.injEq] at h
            rw [← h]
          · simp at h
        · simp at h

/-- The Kaoyan summarizer stamps the summary with the loop index. -/
theorem summarize_kaoyan_index (idx : Nat) (r : KaoyanRow) (s : KaoyanSummary)
    (h : summarize_kaoyan idx r = .ok (some s)) : s.index = idx := by
  unfold summarize_kaoyan at h
  split at h
  · simp at h
  · split at h
    · simp at h
    · split at h
      · simp at h
      · split at h
        · simp only [Except.ok.injEq, Option.some.injEq] at h
          rw [← h]
        · simp at h

/-- When every truthy-parsing record is benign, the IELTS loop succeeds and
emits one summary per truthy-parsing record. -/
theorem essayTrajLoop_count (L : List EssayRow) : ∀ (k : Nat),
    (∀ e ∈ L, essayTruthyParse e = true → essayBenign e = true) →
    ∃ out, essayTrajLoop k L = .ok out ∧
      out.length = (L.filter essayTruthyParse).length := by
  induction L with
  | nil => intro k _; exact ⟨[], rfl, rfl⟩
  | cons e es ih =>
    intro k hall
    obtain ⟨out, hout, hlen⟩ := ih (k + 1) (fun z hz => hall z (by simp [hz]))
    by_cases ht : essayTruthyParse e = true
    · have hb := hall e (by simp) ht
      obtain ⟨s, hs, _⟩ := summarize_essay_emit k e hb
      refine ⟨s :: out, ?_, ?_⟩
      · unfold essayTrajLoop
        rw [hs, hout]
      · simp [List.filter_cons, ht, hlen]
    · simp only [Bool.not_eq_true] at ht
      have hs := summarize_essay_skip k e ht
      refine ⟨out, ?_, ?_⟩
      · unfold essayTrajLoop
        rw [hs, hout]
      · simp [List.filter_cons, ht, hlen]

/-- When every truthy-parsing record is benign, the Kaoyan loop succeeds and
emits one summary per truthy-parsing record. -/
theorem kaoyanTrajLoop_count (L : List KaoyanRow) : ∀ (k : Nat),
    (∀ r ∈ L, kaoyanBenign r = true) →
    ∃ out, kaoyanTrajLoop k L = .ok out ∧
      out.length = (L.filter kaoyanTruthyParse).length := by
  induction L with
  | nil => intro k _; exact ⟨[], rfl, rfl⟩
  | cons r rs ih =>
    intro k hall
    obtain ⟨out, hout, hlen⟩ := ih (k + 1) (fun z hz => hall z (by simp [hz]))
    by_cases ht : kaoyanTruthyParse r = true
    · have hb := hall r (by simp)
      obtain ⟨ts, bd, ev, hs⟩ := summarize_kaoyan_benign k r hb ht
      refine ⟨⟨r.id, k, r.created_at, r.topic, r.exam_type, r.paper_type, ts, bd, ev⟩ :: out,
        ?_, ?_⟩
      · unfold kaoyanTrajLoop
        rw [hs, hout]
      · simp [List.filter_cons, ht, hlen]
    · simp only [Bool.not_eq_true] at ht
      have hs := summarize_kaoyan_skip k r ht
      refine ⟨out, ?_, ?_⟩
      · unfold kaoyanTrajLoop
        rw [hs, hout]
      · simp [List.filter_cons, ht, hlen]

/-- Index discipline of the IELTS loop: indices are strictly increasing, lie
in `[k, k + L.length)`, and each summary is produced by the record at
position `index - k` of the processed list. -/
theorem essayTrajLoop_spec (L : List EssayRow) : ∀ (k : Nat) (out : List EssaySummary),
    essayTrajLoop k L = .ok out →
    List.Chain' (fun a b => a.index < b.index) out ∧
    ∀ s ∈ out, k ≤ s.index ∧ s.index < k + L.length ∧
      ∃ e, L[s.index - k]? = some e ∧ summarize_essay s.index e = .ok (some s) := by
  induction L with
  | nil =>
    intro k out h
    unfold essayTrajLoop at h
    simp only [Except.ok.injEq] at h
    subst h
    exact ⟨by simp, by simp⟩
  | cons e es ih =>
    intro k out h
    unfold essayTrajLoop at h
    cases hse : summarize_essay k e with
    | error u => rw [hse] at h; simp at h
    | ok s? =>
      rw [hse] at h
      simp only [] at h
      cases hloop : essayTrajLoop (k + 1) es with
      | error u => rw [hloop] at h; simp at h
      | ok rest =>
        rw [hloop] at h
        simp only [] at h
        obtain ⟨hchain, hmem⟩ := ih (k + 1) rest hloop
        cases s? with
        | none =>
          simp only [Except.ok.injEq] at h
          subst h
          refine ⟨hchain, ?_⟩
          intro s hs
          obtain ⟨h1, h2, e2, h3, h4⟩ := hmem s hs
          refine ⟨by omega, by simp only [List.length_cons]; omega, e2, ?_, h4⟩
          have hix : s.index - k = (s.index - (k + 1)) + 1 := by omega
          rw [hix]
          simpa using h3
        | some s0 =>
          simp only [Except.ok.injEq] at h
          subst h
          have hidx := summarize_essay_index k e s0 hse
          constructor
          · cases rest with
            | nil => simp
            | cons r1 rs =>
              rw [List.chain'_cons]
              refine ⟨?_, hchain⟩
              have := (hmem r1 (by simp)).1
              omega
          · intro s hs
            rcases List.mem_cons.mp hs with hh | hs2
            · subst hh
              refine ⟨by omega, by simp only [List.length_cons]; omega, e, ?_, by
                rw [hidx]; exact hse⟩
              rw [hidx]
              simp
            · obtain ⟨h1, h2, e2, h3, h4⟩ := hmem s hs2
              refine ⟨by omega, by simp only [List.length_cons]; omega, e2, ?_, h4⟩
              have hix : s.index - k = (s.index - (k + 1)) + 1 := by omega
              rw [hix]
              simpa using h3

/-- Index discipline of the Kaoyan loop. -/
theorem kaoyanTrajLoop_spec (L : List KaoyanRow) : ∀ (k : Nat) (out : List KaoyanSummary),
    kaoyanTrajLoop k L = .ok out →
    List.Chain' (fun a b => a.index < b.index) out ∧
    ∀ s ∈ out, k ≤ s.index ∧ s.index < k + L.length ∧
      ∃ r, L[s.index - k]? = some r ∧ summarize_kaoyan s.index r = .ok (some s) := by
  induction L with
  | nil =>
    intro k out h
    unfold kaoyanTrajLoop at h
    simp only [Except.ok.injEq] at h
    subst h
    exact ⟨by simp, by simp⟩
  | cons e es ih =>
    intro k out h
    unfold kaoyanTrajLoop at h
    cases hse : summarize_kaoyan k e with
    | error u => rw [hse] at h; simp at h
    | ok s? =>
      rw [hse] at h
      simp only [] at h
      cases hloop : kaoyanTrajLoop (k + 1) es with
      | error u => rw [hloop] at h; simp at h
      | ok rest =>
        rw [hloop] at h
        simp only [] at h
        obtain ⟨hchain, hmem⟩ := ih (k + 1) rest hloop
        cases s? with
        | none =>
          simp only [Except.ok.injEq] at h
          subst h
          refine ⟨hchain, ?_⟩
          intro s hs
          obtain ⟨h1, h2, e2, h3, h4⟩ := hmem s hs
          refine ⟨by omega, by simp only [List.length_cons]; omega, e2, ?_, h4⟩
          have hix : s.index - k = (s.index - (k + 1)) + 1 := by omega
          rw [hix]
          simpa using h3
        | some s0 =>
          simp only [Except.ok.injEq] at h
          subst h
          have hidx := summarize_kaoyan_index k e s0 hse
          constructor
          · cases rest with
            | nil => simp
            | cons r1 rs =>
              rw [List.chain'_cons]
              refine ⟨?_, hchain⟩
              have := (hmem r1 (by simp)).1
              omega
          · intro s hs
            rcases List.mem_cons.mp hs with hh | hs2
            · subst hh
              refine ⟨by omega, by simp only [List.length_cons]; omega, e, ?_, by
                rw [hidx]; exact hse⟩
              rw [hidx]
              simp
            · obtain ⟨h1, h2, e2, h3, h4⟩ := hmem s hs2
              refine ⟨by omega, by simp only [List.length_cons]; omega, e2, ?_, h4⟩
              have hix : s.index - k = (s.index - (k + 1)) + 1 := by omega
              rw [hix]
              simpa using h3

/-! ### Score-normalizer lemmas -/

/-- The four candidate score keys of the detailed shape. -/
def scoreKeys : List String := ["total", "language_score", "structure_score", "logic_score"]

/-- A failed conversion of any present field aborts the whole extraction. -/
theorem kaoyanScoreColumns_fail (ai : Json) (skvs : List (String × Json))
    (hscore : scoreOf ai = Json.obj skvs)
    (hdet : ((getNN skvs "total").isSome || (getNN skvs "language_score").isSome) = true)
    (hfail : ∃ k ∈ scoreKeys, ∃ v, getNN skvs k = some v ∧ pyFloat v = none) :
    kaoyanScoreColumns ai = (none, none, none, none) := by
  obtain ⟨k, hk, v, hget, hpf⟩ := hfail
  have hconv : convOpt (getNN skvs k) = none := by
    rw [hget]
    unfold convOpt
    simp only []
    rw [hpf]
  unfold kaoyanScoreColumns
  rw [hscore]
  simp only []
  rw [if_pos hdet]
  simp only [scoreKeys, List.mem_cons, List.not_mem_nil, or_false] at hk
  cases h1 : convOpt (getNN skvs "total") <;>
    cases h2 : convOpt (getNN skvs "language_score") <;>
      cases h3 : convOpt (getNN skvs "structure_score") <;>
        cases h4 : convOpt (getNN skvs "logic_score") <;>
          simp_all <;> rcases hk with rfl | rfl | rfl | rfl <;> simp_all

/-- When every present field converts, the four columns hold exactly the
converted values of the present fields. -/
theorem kaoyanScoreColumns_detail (ai : Json) (skvs : List (String × Json))
    (hscore : scoreOf ai = Json.obj skvs)
    (hdet : ((getNN skvs "total").isSome || (getNN skvs "language_score").isSome) = true)
    (hok : ∀ k ∈ scoreKeys, ∀ v, getNN skvs k = some v → (pyFloat v).isSome = true) :
    kaoyanScoreColumns ai =
      ((getNN skvs "total").bind pyFloat, (getNN skvs "language_score").bind pyFloat,
       (getNN skvs "structure_score").bind pyFloat, (getNN skvs "logic_score").bind pyFloat) := by
  have hc : ∀ k ∈ scoreKeys, convOpt (getNN skvs k) = some ((getNN skvs k).bind pyFloat) := by
    intro k hk
    cases hg : getNN skvs k with
    | none => rfl
    | some v =>
      have hv := hok k hk v hg
      cases hpv : pyFloat v with
      | none => rw [hpv] at hv; simp at hv
      | some x =>
        unfold convOpt
        simp only []
        rw [hpv]
        simp [hpv]
  unfold kaoyanScoreColumns
  rw [hscore]
  simp only []
  rw [if_pos hdet]
  rw [hc ("total") (by simp [scoreKeys]), hc ("language_score") (by simp [scoreKeys]),
    hc ("structure_score") (by simp [scoreKeys]), hc ("logic_score") (by simp [scoreKeys])]

/-- Characterization of the `total_score`-only branch. -/
theorem kaoyanScoreColumns_total_only (ai : Json) (skvs : List (String × Json))
    (hscore : scoreOf ai = Json.obj skvs)
    (hdet : ((getNN skvs "total").isSome || (getNN skvs "language_score").isSome) = false) :
    kaoyanScoreColumns ai =
      (match getNN skvs "total_score" with
       | some v =>
         (match pyFloat v with
          | some x => (some x, none, none, none)
          | none => (none, none, none, none))
       | none => (none, none, none, none)) := by
  unfold kaoyanScoreColumns
  rw [hscore]
  simp only []
  rw [if_neg (by simp [hdet])]

/-- A non-mapping `score` value leaves all four columns absent. -/
theorem kaoyanScoreColumns_nonobj (ai : Json)
    (h : ∀ skvs, scoreOf ai ≠ Json.obj skvs) :
    kaoyanScoreColumns ai = (none, none, none, none) := by
  unfold kaoyanScoreColumns
  cases hsc : scoreOf ai with
  | obj skvs => exact absurd hsc (h skvs)
  | null => rfl
  | bool b => rfl
  | num n => rfl
  | str s => rfl
  | arr xs => rfl

/-! ### Parse-response lemmas -/

/-- The two brace-rescue scans are the same function. -/
theorem brace_fallback_agree (raw : String) :
    DeepSeekService._brace_fallback raw = GeminiService._brace_fallback raw := rfl

/-- Whenever Gemini's fence stripping returns normally, DeepSeek's guarded
stripping produces the same text. -/
theorem strip_fences_agree (t u : String)
    (h : GeminiService._strip_fences t = .ok u) :
    DeepSeekService._strip_fences t = u := by
  unfold GeminiService._strip_fences at h
  unfold DeepSeekService._strip_fences
  by_cases hp : (("```".data).isPrefixOf (pyStrip t).data) = true
  · rw [if_pos hp] at h
    rw [if_pos hp]
    cases hsplit : pySplitNl (pyStrip t) with
    | nil => rw [hsplit] at h; simp at h
    | cons l0 rest =>
      rw [hsplit] at h
      simp only [] at h ⊢
      by_cases h0 : (("```".data).isPrefixOf l0.data) = true
      · rw [if_pos h0] at h ⊢
        cases hlast : rest.getLast? with
        | none => rw [hlast] at h; simp at h
        | some ll =>
          rw [hlast] at h
          simp only [Except.ok.injEq] at h
          rw [← h]
      · rw [if_neg h0] at h ⊢
        cases hlast : (l0 :: rest).getLast? with
        | none => rw [hlast] at h; simp at h
        | some ll =>
          rw [hlast] at h
          simp only [Except.ok.injEq] at h
          rw [← h]
  · rw [if_neg hp] at h
    rw [if_neg hp]
    simp only [Except.ok.injEq] at h
    exact h

/-! ### Claims -/

/-- C8: for every record id, one soft delete leaves the record's status
deleted, and soft deleting the same id a second time is a no-op equal to the
first delete; the operation is total (no error), for both the `essays` and
the `kaoyan_records` tables. -/
theorem c8_soft_delete_idempotent :
    (∀ (db : EssaysDB) (i : Nat),
      delete_essay (delete_essay db i true) i true = delete_essay db i true ∧
      ∀ r ∈ (delete_essay db i true).rows, r.id = i → r.status = EssayStatus.DELETED) ∧
    (∀ (db : KaoyanDB) (i : Nat),
      delete_kaoyan_record (delete_kaoyan_record db i true) i true =
        delete_kaoyan_record db i true ∧
      ∀ r ∈ (delete_kaoyan_record db i true).rows, r.id = i →
        r.status = EssayStatus.DELETED) := by
  constructor
  · intro db i
    constructor
    · unfold delete_essay
      simp only [if_pos]
      congr 1
      rw [List.map_map]
      apply List.map_congr_left
      intro r _
      by_cases h : r.id = i <;> simp [h]
    · intro r hr hid
      unfold delete_essay at hr
      simp only [if_pos] at hr
      obtain ⟨r0, hr0, hfr⟩ := List.mem_map.mp hr
      by_cases h : r0.id = i
      · rw [← hfr]
        simp [h]
      · rw [← hfr] at hid
        simp [h] at hid
  · intro db i
    constructor
    · unfold delete_kaoyan_record
      simp only [if_pos]
      congr 1
      rw [List.map_map]
      apply List.map_congr_left
      intro r _
      by_cases h : r.id = i <;> simp [h]
    · intro r hr hid
      unfold delete_kaoyan_record at hr
      simp only [if_pos] at hr
      obtain ⟨r0, hr0, hfr⟩ := List.mem_map.mp hr
      by_cases h : r0.id = i
      · rw [← hfr]
        simp [h]
      · rw [← hfr] at hid
        simp [h] at hid

/-- Fixture for the C8 witness: a one-row essays table and a one-row kaoyan
table. -/
def c8EssayDb : EssaysDB :=
  ⟨[⟨1, "t", "c", "Task 2", some ("x"), "2024-01-01", "active"⟩], 2⟩

/-- Fixture for the C8 witness (kaoyan side). -/
def c8KaoyanDb : KaoyanDB :=
  ⟨[⟨1, "English I", "large_essay", "t", "c", none, none, none, none, some ("x"),
    "2024-01-01", "active"⟩], 2⟩

/-- C8 witness: the idempotence equations evaluated on concrete one-row
tables. -/
theorem c8_soft_delete_idempotent_witness :
    (delete_essay (delete_essay c8EssayDb 1 true) 1 true = delete_essay c8EssayDb 1 true ∧
      ∀ r ∈ (delete_essay c8EssayDb 1 true).rows, r.id = 1 →
        r.status = EssayStatus.DELETED) ∧
    (delete_kaoyan_record (delete_kaoyan_record c8KaoyanDb 1 true) 1 true =
        delete_kaoyan_record c8KaoyanDb 1 true ∧
      ∀ r ∈ (delete_kaoyan_record c8KaoyanDb 1 true).rows, r.id = 1 →
        r.status = EssayStatus.DELETED) :=
  ⟨c8_soft_delete_idempotent.1 c8EssayDb 1, c8_soft_delete_idempotent.2 c8KaoyanDb 1⟩

/-- C9: creating a record and fetching it back by the returned id yields a
row whose immutable fields match the inputs exactly and whose stored analysis
text deserializes to a payload structurally identical to the one passed in.
The hypothesis is id-freshness of the AUTOINCREMENT counter, an invariant of
the store. -/
theorem c9_create_get_round_trip (db : EssaysDB) (topic user_content task_type now : String)
    (ai : Json) (hfresh : ∀ r ∈ db.rows, r.id ≠ db.nextId) :
    ∃ row, get_essay (create_essay db topic user_content task_type ai now).1
        (create_essay db topic user_content task_type ai now).2 = some row ∧
      row.topic = topic ∧ row.user_content = user_content ∧
      row.task_type = task_type ∧ row.status = EssayStatus.ACTIVE ∧
      row.created_at = now ∧
      ∃ txt, row.ai_analysis = some txt ∧ json_loads txt = some ai := by
  refine ⟨⟨db.nextId, topic, user_content, task_type, some (json_dumps ai), now,
    EssayStatus.ACTIVE⟩, ?_, rfl, rfl, rfl, rfl, rfl, json_dumps ai, rfl,
    json_loads_dumps ai⟩
  unfold get_essay create_essay
  rw [List.find?_append]
  have h1 : db.rows.find? (fun r => r.id == db.nextId) = none := by
    rw [List.find?_eq_none]
    intro r hr
    simp [hfresh r hr]
  rw [h1]
  simp

/-- C9 witness: a nested payload with an array, an object, a string with an
escape, `null` and a negative number survives the round trip on an empty
table. -/
theorem c9_create_get_round_trip_witness :
    ∃ row, get_essay (create_essay ⟨[], 1⟩ ("Technology") ("essay text") ("Task 2")
        (Json.obj [("scores", Json.obj [("overall", Json.num 7)]),
          ("feedback", Json.arr [Json.str ("a\nb"), Json.null, Json.num (-2)])])
        ("2024-01-01T00:00:00")).1
      (create_essay ⟨[], 1⟩ ("Technology") ("essay text") ("Task 2")
        (Json.obj [("scores", Json.obj [("overall", Json.num 7)]),
          ("feedback", Json.arr [Json.str ("a\nb"), Json.null, Json.num (-2)])])
        ("2024-01-01T00:00:00")).2 = some row ∧
      row.topic = ("Technology") ∧ row.user_content = ("essay text") ∧
      row.task_type = ("Task 2") ∧ row.status = EssayStatus.ACTIVE ∧
      row.created_at = ("2024-01-01T00:00:00") ∧
      ∃ txt, row.ai_analysis = some txt ∧
        json_loads txt = some (Json.obj [("scores", Json.obj [("overall", Json.num 7)]),
          ("feedback", Json.arr [Json.str ("a\nb"), Json.null, Json.num (-2)])]) :=
  c9_create_get_round_trip ⟨[], 1⟩ ("Technology") ("essay text") ("Task 2")
    ("2024-01-01T00:00:00")
    (Json.obj [("scores", Json.obj [("overall", Json.num 7)]),
      ("feedback", Json.arr [Json.str ("a\nb"), Json.null, Json.num (-2)])])
    (by simp)

/-- The row appended by `create_kaoyan_record`, with its four denormalized
score columns coming from the extraction block. -/
theorem create_kaoyan_last (db : KaoyanDB) (et pt topic uc now : String) (ai : Json) :
    (create_kaoyan_record db et pt topic uc ai now).1.rows.getLast? =
      some ⟨db.nextId, et, pt, topic, uc,
        (kaoyanScoreColumns ai).1, (kaoyanScoreColumns ai).2.1,
        (kaoyanScoreColumns ai).2.2.1, (kaoyanScoreColumns ai).2.2.2,
        some (json_dumps ai), now, EssayStatus.ACTIVE⟩ := by
  unfold create_kaoyan_record
  exact List.getLast?_concat _

/-- C1: when the `score` sub-object is treated as detailed shape (it has
`total` or `language_score`, both non-null) and converting any one of the
four candidate keys to a number fails, the row stored by
`create_kaoyan_record` has all four denormalized score columns absent. -/
theorem c1_score_normalizer_atomicity (db : KaoyanDB) (et pt topic uc now : String)
    (ai : Json) (skvs : List (String × Json))
    (hscore : scoreOf ai = Json.obj skvs)
    (hdet : ((getNN skvs "total").isSome || (getNN skvs "language_score").isSome) = true)
    (hfail : ∃ k ∈ scoreKeys, ∃ v, getNN skvs k = some v ∧ pyFloat v = none) :
    ∃ row, (create_kaoyan_record db et pt topic uc ai now).1.rows.getLast? = some row ∧
      row.total_score = none ∧ row.language_score = none ∧
      row.structure_score = none ∧ row.logic_score = none := by
  have h := kaoyanScoreColumns_fail ai skvs hscore hdet hfail
  exact ⟨_, create_kaoyan_last db et pt topic uc now ai, by simp [h], by simp [h],
    by simp [h], by simp [h]⟩

/-- The C1 witness payload: `total` converts but `language_score` is a
non-numeric string, so `float(...)` raises. -/
def c1Ai : Json :=
  Json.obj [("score", Json.obj [("total", Json.num 9), ("language_score", Json.str ("bad"))])]

/-- C1 witness: on the concrete payload the stored row has all four score
columns absent even though `total` alone would have converted. -/
theorem c1_score_normalizer_atomicity_witness :
    scoreOf c1Ai = Json.obj [("total", Json.num 9), ("language_score", Json.str ("bad"))] ∧
    ∃ row, (create_kaoyan_record ⟨[], 1⟩ ("English I") ("large_essay") ("t") ("c") c1Ai
        ("2024-01-01")).1.rows.getLast? = some row ∧
      row.total_score = none ∧ row.language_score = none ∧
      row.structure_score = none ∧ row.logic_score = none :=
  ⟨rfl, c1_score_normalizer_atomicity ⟨[], 1⟩ ("English I") ("large_essay") ("t") ("c")
    ("2024-01-01") c1Ai [("total", Json.num 9), ("language_score", Json.str ("bad"))] rfl rfl
    ⟨"language_score", by simp [scoreKeys], Json.str ("bad"), rfl, rfl⟩⟩

/-- C6 (amended): shape dispatch of the score normalizer. In the detailed
branch (`total` or `language_score` present) each PRESENT key that converts is
stored and each ABSENT key yields an absent column — the four are not all
extracted, contrary to the original wording; in the `total_score`-only branch
just the total is stored and the three sub-dimension columns stay absent; when
`score` is not a mapping all four columns stay absent. -/
theorem c6_score_shape_dispatch (db : KaoyanDB) (et pt topic uc now : String) (ai : Json) :
    ∃ row, (create_kaoyan_record db et pt topic uc ai now).1.rows.getLast? = some row ∧
      (∀ skvs, scoreOf ai = Json.obj skvs →
        ((((getNN skvs "total").isSome || (getNN skvs "language_score").isSome) = true →
          (∀ k ∈ scoreKeys, ∀ v, getNN skvs k = some v → (pyFloat v).isSome = true) →
          row.total_score = (getNN skvs "total").bind pyFloat ∧
          row.language_score = (getNN skvs "language_score").bind pyFloat ∧
          row.structure_score = (getNN skvs "structure_score").bind pyFloat ∧
          row.logic_score = (getNN skvs "logic_score").bind pyFloat) ∧
         (((getNN skvs "total").isSome || (getNN skvs "language_score").isSome) = false →
          row.total_score = (getNN skvs "total_score").bind pyFloat ∧
          row.language_score = none ∧ row.structure_score = none ∧
          row.logic_score = none))) ∧
      ((∀ skvs, scoreOf ai ≠ Json.obj skvs) →
        row.total_score = none ∧ row.language_score = none ∧
        row.structure_score = none ∧ row.logic_score = none) := by
  refine ⟨_, create_kaoyan_last db et pt topic uc now ai, ?_, ?_⟩
  · intro skvs hscore
    constructor
    · intro hdet hok
      have h := kaoyanScoreColumns_detail ai skvs hscore hdet hok
      exact ⟨by simp [h], by simp [h], by simp [h], by simp [h]⟩
    · intro hdet
      have h := kaoyanScoreColumns_total_only ai skvs hscore hdet
      cases hg : getNN skvs "total_score" with
      | none =>
        rw [hg] at h
        simp only [] at h
        exact ⟨by simp [h, hg], by simp [h], by simp [h], by simp [h]⟩
      | some v =>
        rw [hg] at h
        simp only [] at h
        cases hpf : pyFloat v with
        | none =>
          rw [hpf] at h
          exact ⟨by simp [h, hg, hpf], by simp [h], by simp [h], by simp [h]⟩
        | some x =>
          rw [hpf] at h
          exact ⟨by simp [h, hg, hpf], by simp [h], by simp [h], by simp [h]⟩
  · intro hno
    have h := kaoyanScoreColumns_nonobj ai hno
    exact ⟨by simp [h], by simp [h], by simp [h], by simp [h]⟩

/-- The C6 counterexample payload: detailed shape with only `total` present. -/
def c6Ai : Json := Json.obj [("score", Json.obj [("total", Json.num 5)])]

/-- C6 counterexample: the `score` object has `total`, so the claim's
detailed branch applies and promises that all four of `total`,
`language_score`, `structure_score`, `logic_score` are extracted as numbers —
but the stored row has only `total_score` populated and the other three
columns absent. -/
theorem c6_score_shape_dispatch_counterexample :
    scoreOf c6Ai = Json.obj [("total", Json.num 5)] ∧
    (getNN [("total", Json.num 5)] "total").isSome = true ∧
    ((create_kaoyan_record ⟨[], 1⟩ ("English I") ("large_essay") ("t") ("c") c6Ai
        ("2024-01-01")).1.rows.getLast?).map
      (fun r => (r.total_score, r.language_score, r.structure_score, r.logic_score)) =
      some (some 5, none, none, none) :=
  ⟨rfl, rfl, rfl⟩

/-- The C6 witness payload: a `total_score`-only score object. -/
def c6AiW : Json := Json.obj [("score", Json.obj [("total_score", Json.num 12)])]

/-- C6 witness: the amended dispatch instantiated on a `total_score`-only
payload — the stored row gets `total_score = 12` and the three sub-dimension
columns absent. -/
theorem c6_score_shape_dispatch_witness :
    ∃ row, (create_kaoyan_record ⟨[], 1⟩ ("English II") ("small_essay") ("t") ("c") c6AiW
        ("2024-01-01")).1.rows.getLast? = some row ∧
      (∀ skvs, scoreOf c6AiW = Json.obj skvs →
        ((((getNN skvs "total").isSome || (getNN skvs "language_score").isSome) = true →
          (∀ k ∈ scoreKeys, ∀ v, getNN skvs k = some v → (pyFloat v).isSome = true) →
          row.total_score = (getNN skvs "total").bind pyFloat ∧
          row.language_score = (getNN skvs "language_score").bind pyFloat ∧
          row.structure_score = (getNN skvs "structure_score").bind pyFloat ∧
          row.logic_score = (getNN skvs "logic_score").bind pyFloat) ∧
         (((getNN skvs "total").isSome || (getNN skvs "language_score").isSome) = false →
          row.total_score = (getNN skvs "total_score").bind pyFloat ∧
          row.language_score = none ∧ row.structure_score = none ∧
          row.logic_score = none))) ∧
      ((∀ skvs, scoreOf c6AiW ≠ Json.obj skvs) →
        row.total_score = none ∧ row.language_score = none ∧
        row.structure_score = none ∧ row.logic_score = none) :=
  c6_score_shape_dispatch ⟨[], 1⟩ ("English II") ("small_essay") ("t") ("c") ("2024-01-01") c6AiW

/-- C7 (amended): input normalization and max score. Both services share the
same three pure normalizers; the exam type goes to English I on 一/1, else to
English II on 二/2, else — correcting the original claim's "defaults to
English I" — to English II when the lowered text contains the substring
"english ii" and only otherwise to English I; the paper type goes to
small_essay on small/小 and to large_essay otherwise; the max score is the
pure table English I → 10/20, English II → 10/15; and 英语二/大作文 yields
English II, large_essay, 15. -/
theorem c7_normalization_and_max_score :
    (∀ et : String,
      DeepSeekService._normalize_exam_type et = GeminiService._normalize_exam_type et ∧
      DeepSeekService._normalize_paper_type et = GeminiService._normalize_paper_type et) ∧
    (∀ et pt : String,
      DeepSeekService._get_max_score et pt = GeminiService._get_max_score et pt) ∧
    (∀ et : String,
      ((hasSub ("一".data) (pyLower (pyStrip et)).data ||
        hasSub ("1".data) (pyLower (pyStrip et)).data) = true →
        DeepSeekService._normalize_exam_type et = ("English I")) ∧
      ((hasSub ("一".data) (pyLower (pyStrip et)).data ||
        hasSub ("1".data) (pyLower (pyStrip et)).data) = false →
       (hasSub ("二".data) (pyLower (pyStrip et)).data ||
        hasSub ("2".data) (pyLower (pyStrip et)).data) = true →
        DeepSeekService._normalize_exam_type et = ("English II")) ∧
      ((hasSub ("一".data) (pyLower (pyStrip et)).data ||
        hasSub ("1".data) (pyLower (pyStrip et)).data) = false →
       (hasSub ("二".data) (pyLower (pyStrip et)).data ||
        hasSub ("2".data) (pyLower (pyStrip et)).data) = false →
       hasSub ("english ii".data) (pyLower (pyStrip et)).data = true →
        DeepSeekService._normalize_exam_type et = ("English II")) ∧
      ((hasSub ("一".data) (pyLower (pyStrip et)).data ||
        hasSub ("1".data) (pyLower (pyStrip et)).data) = false →
       (hasSub ("二".data) (pyLower (pyStrip et)).data ||
        hasSub ("2".data) (pyLower (pyStrip et)).data) = false →
       hasSub ("english ii".data) (pyLower (pyStrip et)).data = false →
        DeepSeekService._normalize_exam_type et = ("English I"))) ∧
    (∀ pt : String,
      ((hasSub ("small".data) (pyLower (pyStrip pt)).data ||
        hasSub ("小".data) (pyLower (pyStrip pt)).data) = true →
        DeepSeekService._normalize_paper_type pt = ("small_essay")) ∧
      ((hasSub ("small".data) (pyLower (pyStrip pt)).data ||
        hasSub ("小".data) (pyLower (pyStrip pt)).data) = false →
        DeepSeekService._normalize_paper_type pt = ("large_essay"))) ∧
    (DeepSeekService._get_max_score ("English I") ("small_essay") = 10 ∧
     DeepSeekService._get_max_score ("English I") ("large_essay") = 20 ∧
     DeepSeekService._get_max_score ("English II") ("small_essay") = 10 ∧
     DeepSeekService._get_max_score ("English II") ("large_essay") = 15) ∧
    (DeepSeekService._normalize_exam_type ("英语二") = ("English II") ∧
     DeepSeekService._normalize_paper_type ("大作文") = ("large_essay") ∧
     DeepSeekService._get_max_score (DeepSeekService._normalize_exam_type ("英语二"))
       (DeepSeekService._normalize_paper_type ("大作文")) = 15) := by
  refine ⟨fun et => ⟨rfl, rfl⟩, fun et pt => rfl, ?_, ?_, ⟨rfl, rfl, rfl, rfl⟩, ⟨rfl, rfl, rfl⟩⟩
  · intro et
    refine ⟨?_, ?_, ?_, ?_⟩
    · intro h1
      simp [DeepSeekService._normalize_exam_type, h1]
    · intro h1 h2
      simp [DeepSeekService._normalize_exam_type, h1, h2]
    · intro h1 h2 h3
      simp [DeepSeekService._normalize_exam_type, h1, h2, h3]
    · intro h1 h2 h3
      simp [DeepSeekService._normalize_exam_type, h1, h2, h3]
  · intro pt
    refine ⟨?_, ?_⟩
    · intro h1
      simp [DeepSeekService._normalize_paper_type, h1]
    · intro h1
      by_cases h2 : (hasSub ("large".data) (pyLower (pyStrip pt)).data ||
          hasSub ("大".data) (pyLower (pyStrip pt)).data) = true
      · simp [DeepSeekService._normalize_paper_type, h1, h2]
      · simp only [Bool.not_eq_true] at h2
        simp [DeepSeekService._normalize_paper_type, h1, h2]

/-- C7 counterexample: the input "English II" contains none of 一, 1, 二, 2,
so the original claim's default clause promises English I — but the service
normalizes it to English II (via the "english ii" substring branch the claim
omits). -/
theorem c7_normalization_counterexample :
    (hasSub ("一".data) (pyLower (pyStrip ("English II"))).data ||
     hasSub ("1".data) (pyLower (pyStrip ("English II"))).data) = false ∧
    (hasSub ("二".data) (pyLower (pyStrip ("English II"))).data ||
     hasSub ("2".data) (pyLower (pyStrip ("English II"))).data) = false ∧
    DeepSeekService._normalize_exam_type ("English II") ≠ ("English I") :=
  ⟨rfl, rfl, by decide⟩

/-- C7 witness: the amended branch conditions instantiated on concrete
inputs 英语一, 英语二, english ii, plain text, and 小作文/大作文. -/
theorem c7_normalization_and_max_score_witness :
    DeepSeekService._normalize_exam_type ("英语一") = ("English I") ∧
    DeepSeekService._normalize_exam_type ("英语二") = ("English II") ∧
    DeepSeekService._normalize_exam_type ("english ii") = ("English II") ∧
    DeepSeekService._normalize_exam_type ("whatever") = ("English I") ∧
    DeepSeekService._normalize_paper_type ("小作文") = ("small_essay") ∧
    DeepSeekService._normalize_paper_type ("大作文") = ("large_essay") :=
  ⟨(c7_normalization_and_max_score.2.2.1 ("英语一")).1 rfl,
   (c7_normalization_and_max_score.2.2.1 ("英语二")).2.1 rfl rfl,
   (c7_normalization_and_max_score.2.2.1 ("english ii")).2.2.1 rfl rfl rfl,
   (c7_normalization_and_max_score.2.2.1 ("whatever")).2.2.2 rfl rfl rfl,
   (c7_normalization_and_max_score.2.2.2.1 ("小作文")).1 rfl,
   (c7_normalization_and_max_score.2.2.2.1 ("大作文")).2 rfl⟩

/-- C4 (amended): when no JSON can be found even after fence stripping and
the brace scan, `_parse_response` returns the parse-failure outcome whose
`raw_text` is the FENCE-STRIPPED text, not the full original input (the two
coincide exactly when the input is already stripped and not fenced): DeepSeek
returns it directly, Gemini returns it whenever its fence stripper exits
normally. -/
theorem c4_error_payload (t : String)
    (h1 : json_loads (DeepSeekService._strip_fences t) = none)
    (h2 : DeepSeekService._brace_fallback (DeepSeekService._strip_fences t) = none) :
    DeepSeekService._parse_response t =
      ParseOutcome.errRaw ("Failed to parse JSON response from DeepSeek")
        (DeepSeekService._strip_fences t) ∧
    (∀ u, GeminiService._strip_fences t = .ok u →
      GeminiService._parse_response t =
        .ok (ParseOutcome.errRaw ("Failed to parse JSON response") u)) ∧
    (pyStrip t = t → ¬ ("```".data).isPrefixOf t.data →
      DeepSeekService._strip_fences t = t) := by
  refine ⟨?_, ?_, ?_⟩
  · unfold DeepSeekService._parse_response
    simp only []
    rw [h1]
    simp only []
    rw [h2]
  · intro u hu
    have he := strip_fences_agree t u hu
    rw [he] at h1 h2
    rw [brace_fallback_agree] at h2
    unfold GeminiService._parse_response
    rw [hu]
    simp only []
    rw [h1]
    simp only []
    rw [h2]
  · intro hs hp
    simp [DeepSeekService._strip_fences, hs, hp]

/-- C4 counterexample: on the input " @@" (leading space, no JSON anywhere)
the error outcome carries the stripped text "@@", which differs from the full
original input — refuting "raw_text ... carrying the full original input
text". -/
theorem c4_error_payload_counterexample :
    DeepSeekService._parse_response (" @@") =
      ParseOutcome.errRaw ("Failed to parse JSON response from DeepSeek") ("@@") ∧
    ("@@" : String) ≠ (" @@") :=
  ⟨rfl, by decide⟩

/-- C4 witness: the amended statement instantiated on the JSON-free input
"xyz 123". -/
theorem c4_error_payload_witness :
    (DeepSeekService._parse_response ("xyz 123") =
      ParseOutcome.errRaw ("Failed to parse JSON response from DeepSeek")
        (DeepSeekService._strip_fences ("xyz 123"))) ∧
    (∀ u, GeminiService._strip_fences ("xyz 123") = .ok u →
      GeminiService._parse_response ("xyz 123") =
        .ok (ParseOutcome.errRaw ("Failed to parse JSON response") u)) ∧
    (pyStrip ("xyz 123") = ("xyz 123") →
      ¬ ("```".data).isPrefixOf ("xyz 123").data →
      DeepSeekService._strip_fences ("xyz 123") = ("xyz 123")) :=
  c4_error_payload ("xyz 123") rfl rfl

/-- C5 (amended): whenever Gemini's parser returns normally the two parsers
agree on success outcomes (same JSON, fenced or brace-embedded included) and
agree on the failure outcome's raw text, but the failure MESSAGES differ
("Failed to parse JSON response" vs "... from DeepSeek"); and on a lone-fence
input Gemini raises an uncaught IndexError where DeepSeek returns normally,
so the parsers are not extensionally equal. -/
theorem c5_backend_interchangeability (t : String) (r : ParseOutcome)
    (h : GeminiService._parse_response t = .ok r) :
    (∀ j, r = ParseOutcome.ok j →
      DeepSeekService._parse_response t = ParseOutcome.ok j) ∧
    (∀ m raw, r = ParseOutcome.errRaw m raw →
      m = ("Failed to parse JSON response") ∧
      DeepSeekService._parse_response t =
        ParseOutcome.errRaw ("Failed to parse JSON response from DeepSeek") raw) := by
  unfold GeminiService._parse_response at h
  cases hst : GeminiService._strip_fences t with
  | error e =>
    rw [hst] at h
    exact absurd h (by simp)
  | ok u =>
    rw [hst] at h
    simp only [] at h
    injection h with h
    have he := strip_fences_agree t u hst
    have hds : DeepSeekService._parse_response t =
        (match json_loads u with
         | some j => ParseOutcome.ok j
         | none =>
           match DeepSeekService._brace_fallback u with
           | some j => ParseOutcome.ok j
           | none =>
             ParseOutcome.errRaw ("Failed to parse JSON response from DeepSeek") u) := by
      unfold DeepSeekService._parse_response
      simp only []
      rw [he]
    cases hl : json_loads u with
    | some j =>
      rw [hl] at h hds
      simp only [] at h hds
      subst h
      refine ⟨fun j2 hj => ?_, fun m raw hmr => ?_⟩
      · injection hj with hj
        subst hj
        exact hds
      · simp at hmr
    | none =>
      rw [hl] at h hds
      simp only [] at h hds
      rw [brace_fallback_agree u] at hds
      cases hb : GeminiService._brace_fallback u with
      | some j =>
        rw [hb] at h hds
        simp only [] at h hds
        subst h
        refine ⟨fun j2 hj => ?_, fun m raw hmr => ?_⟩
        · injection hj with hj
          subst hj
          exact hds
        · simp at hmr
      | none =>
        rw [hb] at h hds
        simp only [] at h hds
        subst h
        refine ⟨fun j2 hj => by simp at hj, fun m raw hmr => ?_⟩
        injection hmr with hm hraw
        subst hraw
        exact ⟨hm.symm, hds⟩

/-- C5 counterexample: the parsers are not extensionally equal — on "zzz"
their failure messages differ, and on the lone-fence input Gemini's stripper
raises (IndexError) while DeepSeek's guarded stripper returns an outcome. -/
theorem c5_backend_interchangeability_counterexample :
    GeminiService._parse_response ("zzz") =
      .ok (ParseOutcome.errRaw ("Failed to parse JSON response") ("zzz")) ∧
    DeepSeekService._parse_response ("zzz") =
      ParseOutcome.errRaw ("Failed to parse JSON response from DeepSeek") ("zzz") ∧
    (("Failed to parse JSON response") : String) ≠
      ("Failed to parse JSON response from DeepSeek") ∧
    GeminiService._parse_response ("```") = .error () ∧
    DeepSeekService._parse_response ("```") =
      ParseOutcome.errRaw ("Failed to parse JSON response from DeepSeek") ("") :=
  ⟨rfl, rfl, by decide, rfl, rfl⟩

/-- C5 witness: on a fence-wrapped JSON response both parsers succeed with
the same decoded object. -/
theorem c5_backend_interchangeability_witness :
    DeepSeekService._parse_response ("```json\n\x7b\"a\": 1\x7d\n```") =
      ParseOutcome.ok (Json.obj [("a", Json.num 1)]) :=
  (c5_backend_interchangeability ("```json\n\x7b\"a\": 1\x7d\n```")
    (ParseOutcome.ok (Json.obj [("a", Json.num 1)])) rfl).1
    (Json.obj [("a", Json.num 1)]) rfl

/-- C2 (amended): records whose analysis text is falsy or fails JSON parsing
are silently skipped while the remaining records produce one summary each —
PROVIDED every record whose analysis does parse is benign (the IELTS decoded
value is a mapping with a mapping `feedback`; the Kaoyan `score` field is a
mapping when present): a parsable-but-non-mapping analysis raises an
uncaught AttributeError instead of being skipped, defeating the original
unconditional claim. -/
theorem c2_trajectory_fault_tolerance (db : EssaysDB) (kdb : KaoyanDB)
    (hb : ∀ e ∈ db.rows, essayTruthyParse e = true → essayBenign e = true)
    (hkb : ∀ r ∈ kdb.rows, kaoyanBenign r = true) :
    (∃ out, get_trajectory_data db = .ok out ∧
      out.length = ((get_active_essays db).filter essayTruthyParse).length) ∧
    (∃ out, get_kaoyan_trajectory_data kdb = .ok out ∧
      out.length = ((get_active_kaoyan_records kdb).filter kaoyanTruthyParse).length) := by
  constructor
  · have hmem : ∀ e ∈ (get_active_essays db).reverse,
        essayTruthyParse e = true → essayBenign e = true := by
      intro e he
      rw [List.mem_reverse] at he
      have h2 : e ∈ db.rows.filter (fun r => r.status == EssayStatus.ACTIVE) :=
        ((sortByDesc_perm _ _).mem_iff).mp he
      exact hb e (List.mem_filter.mp h2).1
    obtain ⟨out, hout, hlen⟩ := essayTrajLoop_count ((get_active_essays db).reverse) 1 hmem
    refine ⟨out, hout, ?_⟩
    rw [hlen]
    simp [List.filter_reverse]
  · have hmem : ∀ r ∈ (get_active_kaoyan_records kdb).reverse, kaoyanBenign r = true := by
      intro r hr
      rw [List.mem_reverse] at hr
      have h2 : r ∈ kdb.rows.filter (fun z => z.status == EssayStatus.ACTIVE) :=
        ((sortByDesc_perm _ _).mem_iff).mp hr
      exact hkb r (List.mem_filter.mp h2).1
    obtain ⟨out, hout, hlen⟩ := kaoyanTrajLoop_count ((get_active_kaoyan_records kdb).reverse) 1 hmem
    refine ⟨out, hout, ?_⟩
    rw [hlen]
    simp [List.filter_reverse]

/-- The C2 counterexample table: two active essays, both with truthy,
parsable analysis text; the second decodes to the number 3 rather than to a
mapping. -/
def c2db : EssaysDB :=
  ⟨[⟨1, "t1", "c1", "Task 2",
      some ("\x7b\"scores\": \x7b\x7d, \"feedback\": \x7b\x7d\x7d"), "2024-01-01", "active"⟩,
    ⟨2, "t2", "c2", "Task 2", some ("3"), "2024-01-02", "active"⟩], 3⟩

/-- C2 counterexample: every stored analysis parses, yet the trajectory call
raises (AttributeError on `analysis.get` over a decoded number) instead of
skipping the bad record and summarizing the rest. -/
theorem c2_trajectory_fault_tolerance_counterexample :
    (∀ e ∈ c2db.rows, e.status = EssayStatus.ACTIVE ∧ essayTruthyParse e = true) ∧
    get_trajectory_data c2db = .error () :=
  ⟨by decide, rfl⟩

/-- The C2 witness table: five active essays of which exactly one has an
unparsable analysis blob. -/
def c2dbW : EssaysDB :=
  ⟨[⟨1, "t1", "c1", "Task 2",
      some ("\x7b\"scores\": \x7b\x7d, \"feedback\": \x7b\x7d\x7d"), "2024-01-01", "active"⟩,
    ⟨2, "t2", "c2", "Task 2",
      some ("\x7b\"scores\": \x7b\x7d, \"feedback\": \x7b\x7d\x7d"), "2024-01-02", "active"⟩,
    ⟨3, "t3", "c3", "Task 2", some ("not json"), "2024-01-03", "active"⟩,
    ⟨4, "t4", "c4", "Task 2",
      some ("\x7b\"scores\": \x7b\x7d, \"feedback\": \x7b\x7d\x7d"), "2024-01-04", "active"⟩,
    ⟨5, "t5", "c5", "Task 2",
      some ("\x7b\"scores\": \x7b\x7d, \"feedback\": \x7b\x7d\x7d"), "2024-01-05", "active"⟩], 6⟩

/-- The C2 witness Kaoyan table: one benign record and one with an
unparsable blob. -/
def c2kdbW : KaoyanDB :=
  ⟨[⟨1, "English I", "large_essay", "t", "c", some 4, none, none, none,
      some ("\x7b\"score\": \x7b\"total_score\": 5\x7d\x7d"), "2024-01-01", "active"⟩,
    ⟨2, "English I", "large_essay", "t", "c", none, none, none, none,
      some ("oops"), "2024-01-02", "active"⟩], 3⟩

/-- C2 witness: on the five-record table with exactly one unparsable blob
the call succeeds and the summary count is the parsable-record count, 4 of
5. -/
theorem c2_trajectory_fault_tolerance_witness :
    ((∃ out, get_trajectory_data c2dbW = .ok out ∧
      out.length = ((get_active_essays c2dbW).filter essayTruthyParse).length) ∧
     (∃ out, get_kaoyan_trajectory_data c2kdbW = .ok out ∧
      out.length = ((get_active_kaoyan_records c2kdbW).filter kaoyanTruthyParse).length)) ∧
    c2dbW.rows.length = 5 ∧
    ((get_active_essays c2dbW).filter essayTruthyParse).length = 4 :=
  ⟨c2_trajectory_fault_tolerance c2dbW c2kdbW (by decide) (by decide), rfl, rfl⟩

/-- One successful step of the IELTS trajectory loop. -/
theorem essayTrajLoop_cons_ok (k : Nat) (e : EssayRow) (es : List EssayRow)
    (s : EssaySummary) (rest : List EssaySummary)
    (h1 : summarize_essay k e = .ok (some s))
    (h2 : essayTrajLoop (k + 1) es = .ok rest) :
    essayTrajLoop k (e :: es) = .ok (s :: rest) := by
  unfold essayTrajLoop
  rw [h1, h2]

/-- `strLtB` is irreflexive, so strictly smaller keys are distinct. -/
theorem strLtB_ne (a b : String) (h : strLtB a b = true) : b ≠ a := by
  intro heq
  subst heq
  have h2 := strLtB_asymm _ _ h
  rw [h] at h2
  simp at h2

/-- C3 (amended): for three active records with strictly increasing
timestamps T1 < T2 < T3 whose analyses parse AND decode benignly (mappings
with mapping `feedback`), the extractor emits exactly the three summaries in
chronological order, index 1 at T1, 2 at T2, 3 at T3, whatever the storage
order; without the benignity strengthening a parsable non-mapping analysis
aborts the call instead. -/
theorem c3_trajectory_ordering (db : EssaysDB) (r1 r2 r3 : EssayRow)
    (hperm : List.Perm db.rows [r1, r2, r3])
    (ha1 : r1.status = EssayStatus.ACTIVE) (ha2 : r2.status = EssayStatus.ACTIVE)
    (ha3 : r3.status = EssayStatus.ACTIVE)
    (hb1 : essayBenign r1 = true) (hb2 : essayBenign r2 = true)
    (hb3 : essayBenign r3 = true)
    (h12 : strLtB r1.created_at r2.created_at = true)
    (h23 : strLtB r2.created_at r3.created_at = true) :
    ∃ sc1 wk1 sc2 wk2 sc3 wk3, get_trajectory_data db =
      .ok [⟨r1.id, 1, r1.created_at, r1.topic, r1.task_type, sc1, wk1⟩,
           ⟨r2.id, 2, r2.created_at, r2.topic, r2.task_type, sc2, wk2⟩,
           ⟨r3.id, 3, r3.created_at, r3.topic, r3.task_type, sc3, wk3⟩] := by
  have h13 : strLtB r1.created_at r3.created_at = true := strLtB_trans _ _ _ h12 h23
  have hfilter : List.Perm (db.rows.filter (fun r => r.status == EssayStatus.ACTIVE))
      [r1, r2, r3] := by
    have hp2 := hperm.filter (fun r => r.status == EssayStatus.ACTIVE)
    have heq : ([r1, r2, r3].filter (fun r => r.status == EssayStatus.ACTIVE)) =
        [r1, r2, r3] := by
      simp [List.filter_cons, ha1, ha2, ha3]
    rwa [heq] at hp2
  have hrev : List.Perm ([r1, r2, r3] : List EssayRow) [r3, r2, r1] := by
    have hh := (List.reverse_perm ([r1, r2, r3] : List EssayRow)).symm
    simpa using hh
  have hp : List.Perm (get_active_essays db) [r3, r2, r1] :=
    (sortByDesc_perm _ _).trans (hfilter.trans hrev)
  have hsort : get_active_essays db = [r3, r2, r1] := by
    refine sortedDescBy_unique (fun r => r.created_at) _ _ hp ?_ ?_ ?_
    · show SortedDescBy (fun r => r.created_at) (get_active_essays db)
      exact sortByDesc_sorted (fun r => r.created_at)
        (db.rows.filter (fun r => r.status == EssayStatus.ACTIVE))
    · rw [SortedDescBy]
      refine List.pairwise_cons.mpr ⟨?_, List.pairwise_cons.mpr
        ⟨?_, List.pairwise_singleton _ _⟩⟩
      · intro z hz
        rcases List.mem_cons.mp hz with hzz | hzz
        · subst hzz; exact strLtB_asymm _ _ h23
        · simp only [List.mem_singleton] at hzz
          subst hzz; exact strLtB_asymm _ _ h13
      · intro z hz
        simp only [List.mem_singleton] at hz
        subst hz; exact strLtB_asymm _ _ h12
    · refine (List.Perm.pairwise_iff (fun h he => h he.symm) hp).mpr ?_
      refine List.pairwise_cons.mpr ⟨?_, List.pairwise_cons.mpr
        ⟨?_, List.pairwise_singleton _ _⟩⟩
      · intro z hz
        rcases List.mem_cons.mp hz with hzz | hzz
        · subst hzz; exact strLtB_ne _ _ h23
        · simp only [List.mem_singleton] at hzz
          subst hzz; exact strLtB_ne _ _ h13
      · intro z hz
        simp only [List.mem_singleton] at hz
        subst hz; exact strLtB_ne _ _ h12
  obtain ⟨sc1, wk1, hsum1⟩ := summarize_essay_benign 1 r1 hb1
  obtain ⟨sc2, wk2, hsum2⟩ := summarize_essay_benign 2 r2 hb2
  obtain ⟨sc3, wk3, hsum3⟩ := summarize_essay_benign 3 r3 hb3
  refine ⟨sc1, wk1, sc2, wk2, sc3, wk3, ?_⟩
  unfold get_trajectory_data
  rw [hsort]
  show essayTrajLoop 1 [r1, r2, r3] = _
  exact essayTrajLoop_cons_ok 1 r1 [r2, r3] _ _ hsum1
    (essayTrajLoop_cons_ok 2 r2 [r3] _ _ hsum2
      (essayTrajLoop_cons_ok 3 r3 [] _ _ hsum3 rfl))

/-- The C3 counterexample table: three active records, timestamps T1 < T2 <
T3, all analyses parse, but the oldest decodes to the number 3. -/
def c3db : EssaysDB :=
  ⟨[⟨1, "t1", "c1", "Task 2", some ("3"), "2024-01-01", "active"⟩,
    ⟨2, "t2", "c2", "Task 2",
      some ("\x7b\"scores\": \x7b\x7d, \"feedback\": \x7b\x7d\x7d"), "2024-01-02", "active"⟩,
    ⟨3, "t3", "c3", "Task 2",
      some ("\x7b\"scores\": \x7b\x7d, \"feedback\": \x7b\x7d\x7d"), "2024-01-03", "active"⟩],
   4⟩

/-- C3 counterexample: the premise of the original claim holds (three active
records, increasing timestamps, every blob parses) yet the extractor raises
instead of returning the ordered three-summary sequence. -/
theorem c3_trajectory_ordering_counterexample :
    (∀ e ∈ c3db.rows, e.status = EssayStatus.ACTIVE ∧ essayTruthyParse e = true) ∧
    strLtB ("2024-01-01") ("2024-01-02") = true ∧
    strLtB ("2024-01-02") ("2024-01-03") = true ∧
    get_trajectory_data c3db = .error () :=
  ⟨by decide, rfl, rfl, rfl⟩

/-- C3 witness rows: three benign records, oldest first. -/
def c3w1 : EssayRow :=
  ⟨1, "t1", "c1", "Task 2",
    some ("\x7b\"scores\": \x7b\x7d, \"feedback\": \x7b\x7d\x7d"), "2024-01-01", "active"⟩

/-- Second C3 witness row. -/
def c3w2 : EssayRow :=
  ⟨2, "t2", "c2", "Task 2",
    some ("\x7b\"scores\": \x7b\x7d, \"feedback\": \x7b\x7d\x7d"), "2024-01-02", "active"⟩

/-- Third C3 witness row. -/
def c3w3 : EssayRow :=
  ⟨3, "t3", "c3", "Task 2",
    some ("\x7b\"scores\": \x7b\x7d, \"feedback\": \x7b\x7d\x7d"), "2024-01-03", "active"⟩

/-- The C3 witness table stores the newest-first pair swapped, so storage
order differs from submission order. -/
def c3dbW : EssaysDB := ⟨[c3w2, c3w1, c3w3], 4⟩

/-- C3 witness: the amended ordering statement on a concrete shuffled
three-record table. -/
theorem c3_trajectory_ordering_witness :
    ∃ sc1 wk1 sc2 wk2 sc3 wk3, get_trajectory_data c3dbW =
      .ok [⟨c3w1.id, 1, c3w1.created_at, c3w1.topic, c3w1.task_type, sc1, wk1⟩,
           ⟨c3w2.id, 2, c3w2.created_at, c3w2.topic, c3w2.task_type, sc2, wk2⟩,
           ⟨c3w3.id, 3, c3w3.created_at, c3w3.topic, c3w3.task_type, sc3, wk3⟩] :=
  c3_trajectory_ordering c3dbW c3w1 c3w2 c3w3 (List.Perm.swap c3w1 c3w2 [c3w3])
    rfl rfl rfl rfl rfl rfl rfl rfl

/-- C10: in both extractors every active record consumes an index whether or
not it is emitted — each summary's 1-based `index` locates its own record in
the oldest-first active list (the record at position `index - 1` summarizes
to exactly that summary), indices are strictly increasing, and a skipped
record leaves a gap rather than renumbering later summaries. -/
theorem c10_trajectory_index_gaps (db : EssaysDB) (kdb : KaoyanDB)
    (out : List EssaySummary) (kout : List KaoyanSummary)
    (h : get_trajectory_data db = .ok out)
    (hk : get_kaoyan_trajectory_data kdb = .ok kout) :
    (List.Chain' (fun a b => a.index < b.index) out ∧
     ∀ s ∈ out, 1 ≤ s.index ∧ s.index ≤ (get_active_essays db).length ∧
       ∃ e, ((get_active_essays db).reverse)[s.index - 1]? = some e ∧
         summarize_essay s.index e = .ok (some s)) ∧
    (List.Chain' (fun a b => a.index < b.index) kout ∧
     ∀ s ∈ kout, 1 ≤ s.index ∧ s.index ≤ (get_active_kaoyan_records kdb).length ∧
       ∃ r, ((get_active_kaoyan_records kdb).reverse)[s.index - 1]? = some r ∧
         summarize_kaoyan s.index r = .ok (some s)) := by
  obtain ⟨hc, hm⟩ := essayTrajLoop_spec ((get_active_essays db).reverse) 1 out h
  obtain ⟨hkc, hkm⟩ := kaoyanTrajLoop_spec ((get_active_kaoyan_records kdb).reverse) 1 kout hk
  refine ⟨⟨hc, ?_⟩, hkc, ?_⟩
  · intro s hs
    obtain ⟨h1, h2, e, h3, h4⟩ := hm s hs
    rw [List.length_reverse] at h2
    exact ⟨h1, by omega, e, h3, h4⟩
  · intro s hs
    obtain ⟨h1, h2, r, h3, h4⟩ := hkm s hs
    rw [List.length_reverse] at h2
    exact ⟨h1, by omega, r, h3, h4⟩

/-- The C10 witness essays table: the middle record (by timestamp) has no
analysis, so it is skipped but still consumes index 2. -/
def c10db : EssaysDB :=
  ⟨[⟨1, "t1", "c1", "Task 2", some ("\x7b\x7d"), "2024-01-01", "active"⟩,
    ⟨2, "t2", "c2", "Task 2", none, "2024-01-02", "active"⟩,
    ⟨3, "t3", "c3", "Task 2", some ("\x7b\x7d"), "2024-01-03", "active"⟩], 4⟩

/-- The C10 witness Kaoyan table: the older record has no analysis, so the
emitted summary starts at index 2. -/
def c10kdb : KaoyanDB :=
  ⟨[⟨1, "English I", "large_essay", "t1", "c1", none, none, none, none, none,
      "2024-01-01", "active"⟩,
    ⟨2, "English II", "small_essay", "t2", "c2", some 4, none, none, none,
      some ("\x7b\x7d"), "2024-01-02", "active"⟩], 3⟩

/-- C10 witness: on concrete tables with a skipped middle/first record the
emitted index lists are [1, 3] and [2] — strictly increasing with gaps. -/
theorem c10_trajectory_index_gaps_witness :
    ((List.Chain' (fun a b => a.index < b.index)
        [(⟨1, 1, ("2024-01-01"), ("t1"), ("Task 2"), Json.obj [], Json.arr []⟩ : EssaySummary),
         ⟨3, 3, ("2024-01-03"), ("t3"), ("Task 2"), Json.obj [], Json.arr []⟩] ∧
      ∀ s ∈ [(⟨1, 1, ("2024-01-01"), ("t1"), ("Task 2"), Json.obj [], Json.arr []⟩ : EssaySummary),
         ⟨3, 3, ("2024-01-03"), ("t3"), ("Task 2"), Json.obj [], Json.arr []⟩],
        1 ≤ s.index ∧ s.index ≤ (get_active_essays c10db).length ∧
        ∃ e, ((get_active_essays c10db).reverse)[s.index - 1]? = some e ∧
          summarize_essay s.index e = .ok (some s)) ∧
     (List.Chain' (fun a b => a.index < b.index)
        [(⟨2, 2, ("2024-01-02"), ("t2"), ("English II"), ("small_essay"),
           Json.num 4, Json.null, Json.str ("")⟩ : KaoyanSummary)] ∧
      ∀ s ∈ [(⟨2, 2, ("2024-01-02"), ("t2"), ("English II"), ("small_essay"),
           Json.num 4, Json.null, Json.str ("")⟩ : KaoyanSummary)],
        1 ≤ s.index ∧ s.index ≤ (get_active_kaoyan_records c10kdb).length ∧
        ∃ r, ((get_active_kaoyan_records c10kdb).reverse)[s.index - 1]? = some r ∧
          summarize_kaoyan s.index r = .ok (some s))) ∧
    ([(⟨1, 1, ("2024-01-01"), ("t1"), ("Task 2"), Json.obj [], Json.arr []⟩ : EssaySummary),
      ⟨3, 3, ("2024-01-03"), ("t3"), ("Task 2"), Json.obj [], Json.arr []⟩].map
        (fun s => s.index)) = [1, 3] :=
  ⟨c10_trajectory_index_gaps c10db c10kdb
    [⟨1, 1, ("2024-01-01"), ("t1"), ("Task 2"), Json.obj [], Json.arr []⟩,
     ⟨3, 3, ("2024-01-03"), ("t3"), ("Task 2"), Json.obj [], Json.arr []⟩]
    [⟨2, 2, ("2024-01-02"), ("t2"), ("English II"), ("small_essay"),
      Json.num 4, Json.null, Json.str ("")⟩] rfl rfl, rfl⟩
